import Mathlib

/-!
# libvmod-soap: the streaming parse state machine of `vmod_soap.c`

A shallow embedding of `read_iter_f`, `process_init_read`, `process_request`
and the VCL query functions built on them (`vmod_is_valid`, `vmod_action`,
`vmod_action_namespace`, `vmod_xpath_header`, `vmod_xpath_body`).

What `vmod_soap.c` calls but does not define is taken as a parameter (`Env`):
the XML consumer `soap_iter_f`, `init_req_xml`, `evaluate_xpath`, and the body
iterator `VRB_Iterate` of the host.  Nothing is assumed about them beyond what
a theorem states as a hypothesis.

The C `while` loop of `process_request` can spin for ever (for instance on a
target above `BODY_DONE`), so the loop is embedded with a bound on the number
of loop bodies it may execute; a run that hits the bound is reported as
`Res.out_of_fuel`, a failed `assert` as `Res.assert_failed`.  Every run carries
the list of events (one per state mutation, per chunk and per pull) that it
performed, so that statements about "no pull", "between the chunks of one
pass" or "the mode changed" are statements about that list.
-/

namespace VmodSoap

/-! ## Data model -/

/-- The `enum soap_state` of `vmod_soap.c`, lines 43-50. -/
inductive soap_state
  | NONE
  | INIT
  | HEADER_DONE
  | ACTION_AVAILABLE
  | BODY_DONE
  | FAILED
  deriving DecidableEq, Repr

/-- The integer value of an enumerator (`NONE = 0`, then counting up). -/
def soap_state.toNat : soap_state → Nat
  | .NONE => 0
  | .INIT => 1
  | .HEADER_DONE => 2
  | .ACTION_AVAILABLE => 3
  | .BODY_DONE => 4
  | .FAILED => 5

instance : LT soap_state := ⟨fun a b => a.toNat < b.toNat⟩
instance : LE soap_state := ⟨fun a b => a.toNat ≤ b.toNat⟩
instance (a b : soap_state) : Decidable (a < b) := Nat.decLt _ _
instance (a b : soap_state) : Decidable (a ≤ b) := Nat.decLe _ _

/-- The two delivery modes that `vmod_soap.c` passes to `VRB_Iterate`
(the enumeration itself is declared by the host, not in this file). -/
inductive vrb_what_e
  | VRB_CACHED
  | VRB_REMAIN
  deriving DecidableEq, Repr

/-- One invocation of the `objiterate_f` callback: `flush`, and the `len`
bytes at `ptr`. -/
structure Chunk where
  flush : Nat
  ptr : List Nat
  deriving DecidableEq, Repr

/-- The part of `struct soap_req_xml` that `vmod_soap.c` reads: the four
extracted facts (a `NULL` pointer is `none`).  Everything else the XML layer
keeps in the structure (the push-parse context and so on) is `ctxt`. -/
structure soap_req_xml (P : Type) where
  ctxt : P
  header : Option String
  action_name : Option String
  action_namespace : Option String
  body : Option String

/-- The part of `struct priv_soap_task` that the state machine uses.
`req` stands for `task->ctx->req`, the transport state of the request. -/
structure priv_soap_task (P R : Type) where
  state : soap_state
  vrb_what : vrb_what_e
  req_xml : soap_req_xml P
  req : R

/-- The task as the next call finds it when the host has moved the transport
to `req` in between. -/
def priv_soap_task.with_req {P R : Type} (task : priv_soap_task P R) (req : R) :
    priv_soap_task P R :=
  { task with req := req }

/-- The collaborators of `vmod_soap.c` that are defined elsewhere.
* `soap_iter_f req_xml chunk` is the consumer: its `int` result and the
  `req_xml` it leaves behind;
* `init_req_xml` prepares the parse context;
* `VRB_Iterate req what` is one pull of the host: the chunks it hands to the
  callback, in order, its own result when no callback stopped it, and the
  transport state afterwards;
* `body_none req` is `req->req_body_status == BS_NONE`;
* `evaluate_xpath namespaces fragment xpath` is the XPath facade (a `NULL`
  result is `none`). -/
structure Env (P R : Type) where
  soap_iter_f : soap_req_xml P → Chunk → Int × soap_req_xml P
  init_req_xml : soap_req_xml P → soap_req_xml P
  VRB_Iterate : R → vrb_what_e → (List Chunk × Int) × R
  body_none : R → Bool
  evaluate_xpath : List (String × String) → Option String → String → Option String

/-- What a logged event was. `pull old r`: `VRB_Iterate` returned `r`, and
`old` was `task->state` before the pass. -/
inductive EvKind
  | init
  | chunk
  | pull (old : soap_state) (r : Int)
  | switch
  | fail
  deriving DecidableEq, Repr

/-- A logged event with `task->state` and `task->vrb_what` right after it. -/
structure Ev where
  kind : EvKind
  state : soap_state
  what : vrb_what_e
  deriving DecidableEq, Repr

/-- How a run ended: it returned `a`, an `assert` failed (the host aborts),
or the bound on loop bodies was hit. -/
inductive Res (α : Type)
  | ret (a : α)
  | assert_failed
  | out_of_fuel
  deriving DecidableEq, Repr

/-- A run: how it ended, the task it left, and the events it performed. -/
structure Run (α P R : Type) where
  res : Res α
  task : priv_soap_task P R
  log : List Ev

/-- The same run with `evs` performed before it. -/
def Run.after {α P R : Type} (evs : List Ev) (run : Run α P R) : Run α P R :=
  { run with log := evs ++ run.log }

/-! ## The code -/

section Code

variable {P R : Type}

/-- Embeds `process_init_read`, lines 152-166: `none` is the failed
`assert(task->state == NONE)`, otherwise the `int` result and the task. -/
def process_init_read (E : Env P R) (task : priv_soap_task P R) :
    Option (Int × priv_soap_task P R) :=
  if task.state = .NONE then
    some (0, { task with
      req_xml := E.init_req_xml task.req_xml
      state := .INIT
      vrb_what := .VRB_CACHED })
  else none

/-- Embeds `read_iter_f`, lines 168-196: `none` is the failed `assert`,
otherwise the `int` result and the task. -/
def read_iter_f (E : Env P R) (task : priv_soap_task P R) (c : Chunk) :
    Option (Int × priv_soap_task P R) :=
  if task.state = .FAILED then some (0, task)
  else if ¬ (task.state = .INIT ∨ task.state = .HEADER_DONE ∨
      task.state = .ACTION_AVAILABLE) then none
  else
    let out := E.soap_iter_f task.req_xml c
    let err := out.1
    let task := { task with req_xml := out.2 }
    if err < 0 then some (0, { task with state := .FAILED })
    else if task.req_xml.body.isSome then some (0, { task with state := .BODY_DONE })
    else if task.req_xml.action_namespace.isSome ∧ task.req_xml.action_name.isSome then
      some (0, { task with state := .ACTION_AVAILABLE })
    else if task.req_xml.header.isSome then some (0, { task with state := .HEADER_DONE })
    else some (0, task)

/-- The host hands the chunks of one pass to `read_iter_f`, one by one; a
non-zero result of the callback stops the pass and becomes its result,
otherwise the result is `r`.  `none` is an abort inside the callback. -/
def iterate_chunks (E : Env P R) (r : Int) :
    List Chunk → priv_soap_task P R → Option Int × priv_soap_task P R × List Ev
  | [], task => (some r, task, [])
  | c :: cs, task =>
    match read_iter_f E task c with
    | none => (none, task, [])
    | some (i, task1) =>
      let ev : Ev := ⟨.chunk, task1.state, task1.vrb_what⟩
      if i ≠ 0 then (some i, task1, [ev])
      else
        let rest := iterate_chunks E r cs task1
        (rest.1, rest.2.1, ev :: rest.2.2)

/-- The call `VRB_Iterate(wrk, vsl, req, read_iter_f, task, task->vrb_what)`
of line 219. -/
def pull_pass (E : Env P R) (task : priv_soap_task P R) :
    Option Int × priv_soap_task P R × List Ev :=
  let out := E.VRB_Iterate task.req task.vrb_what
  iterate_chunks E out.1.2 out.1.1 { task with req := out.2 }

/-- The `while (task->state < state)` loop of `process_request`, lines
206-243, with at most `fuel` loop bodies.  The six enumerators are all the
values of `soap_state`, so the `default: WRONG` branch has no counterpart. -/
def process_request_loop (E : Env P R) (state : soap_state) (can_eat : Bool) :
    Nat → priv_soap_task P R → Run Int P R
  | fuel, task =>
    if task.state < state then
      match fuel with
      | 0 => ⟨.out_of_fuel, task, []⟩
      | fuel + 1 =>
        match task.state with
        | .NONE =>
          match process_init_read E task with
          | none => ⟨.assert_failed, task, []⟩
          | some (r, task1) =>
            if r ≠ 0 then ⟨.ret r, task1, [⟨.init, task1.state, task1.vrb_what⟩]⟩
            else
              (process_request_loop E state can_eat fuel task1).after
                [⟨.init, task1.state, task1.vrb_what⟩]
        | .BODY_DONE => process_request_loop E state can_eat fuel task
        | .FAILED => process_request_loop E state can_eat fuel task
        | old =>
          match pull_pass E task with
          | (none, task1, evs) => ⟨.assert_failed, task1, evs⟩
          | (some r, task1, evs) =>
            let evs := evs ++ [⟨.pull old r, task1.state, task1.vrb_what⟩]
            if task1.vrb_what = .VRB_CACHED ∧ can_eat = true then
              let task2 := { task1 with vrb_what := .VRB_REMAIN }
              (process_request_loop E state can_eat fuel task2).after
                (evs ++ [⟨.switch, task2.state, task2.vrb_what⟩])
            else
              let r := if r = 0 ∧ old = task1.state then -1 else r
              if r ≠ 0 then
                let task2 := { task1 with state := .FAILED }
                ⟨.ret r, task2, evs ++ [⟨.fail, task2.state, task2.vrb_what⟩]⟩
              else
                (process_request_loop E state can_eat fuel task1).after evs
    else ⟨.ret (if task.state = .FAILED then 1 else 0), task, []⟩

/-- Embeds `process_request`, lines 198-244. -/
def process_request (E : Env P R) (fuel : Nat) (task : priv_soap_task P R)
    (state : soap_state) (can_eat : Bool) : Run Int P R :=
  if E.body_none task.req = true then ⟨.ret (-1), task, []⟩
  else process_request_loop E state can_eat fuel task

/-- The result of a run turned into the result of its caller. -/
def Run.value {α β P R : Type} (run : Run α P R)
    (f : α → priv_soap_task P R → β) : Run β P R :=
  match run.res with
  | .ret a => ⟨.ret (f a run.task), run.task, run.log⟩
  | .assert_failed => ⟨.assert_failed, run.task, run.log⟩
  | .out_of_fuel => ⟨.out_of_fuel, run.task, run.log⟩

/-- Embeds `priv_soap_get`, lines 302-320, for a session that exists
(`priv->priv != NULL`): the stored task is returned. -/
def priv_soap_get (priv : priv_soap_task P R) : priv_soap_task P R := priv

/-- Embeds `vmod_is_valid`, lines 322-328. -/
def vmod_is_valid (E : Env P R) (fuel : Nat) (priv : priv_soap_task P R) :
    Run Bool P R :=
  let soap_task := priv_soap_get priv
  (process_request E fuel soap_task .ACTION_AVAILABLE true).value
    fun r _ => decide (r = 0)

/-- Embeds `vmod_action`, lines 330-338 (a `VCL_STRING` is `none` when it is
the `NULL` pointer). -/
def vmod_action (E : Env P R) (fuel : Nat) (priv : priv_soap_task P R) :
    Run (Option String) P R :=
  let soap_task := priv_soap_get priv
  (process_request E fuel soap_task .ACTION_AVAILABLE true).value
    fun r task => if r = 0 then task.req_xml.action_name else some ""

/-- Embeds `vmod_action_namespace`, lines 340-348. -/
def vmod_action_namespace (E : Env P R) (fuel : Nat) (priv : priv_soap_task P R) :
    Run (Option String) P R :=
  let soap_task := priv_soap_get priv
  (process_request E fuel soap_task .ACTION_AVAILABLE true).value
    fun r task => if r = 0 then task.req_xml.action_namespace else some ""

/-- Embeds `vmod_xpath_header`, lines 366-382; `soap_vcl` is the list of
registered namespaces. -/
def vmod_xpath_header (E : Env P R) (fuel : Nat) (soap_vcl : List (String × String))
    (priv_task : priv_soap_task P R) (xpath : String) : Run (Option String) P R :=
  let soap_task := priv_soap_get priv_task
  (process_request E fuel soap_task .HEADER_DONE true).value
    fun r task =>
      if r = 0 then E.evaluate_xpath soap_vcl task.req_xml.header xpath else some ""

/-- Embeds `vmod_xpath_body`, lines 384-400. -/
def vmod_xpath_body (E : Env P R) (fuel : Nat) (soap_vcl : List (String × String))
    (priv_task : priv_soap_task P R) (xpath : String) : Run (Option String) P R :=
  let soap_task := priv_soap_get priv_task
  (process_request E fuel soap_task .BODY_DONE true).value
    fun r task =>
      if r = 0 then E.evaluate_xpath soap_vcl task.req_xml.body xpath else some ""

end Code

/-! ## Sessions over time -/

section Lifetime

variable {P R : Type}

/-- One call of `process_request` in the life of a session: its target, its
`can_eat`, and what the host did to the transport since the previous call. -/
structure Call (R : Type) where
  state : soap_state
  can_eat : Bool
  host : R → R

/-- The calls of `cs` made one after the other on the same task; a call
that does not return ends the life of the process. -/
def lifetime (E : Env P R) (fuel : Nat) :
    List (Call R) → priv_soap_task P R → List (Call R × Run Int P R)
  | [], _ => []
  | c :: cs, task =>
    let run := process_request E fuel { task with req := c.host task.req } c.state c.can_eat
    match run.res with
    | .ret _ => (c, run) :: lifetime E fuel cs run.task
    | _ => [(c, run)]

/-- All events of a list of calls with their runs, in the order they
happened. -/
def events (runs : List (Call R × Run Int P R)) : List Ev :=
  (runs.map fun cr => cr.2.log).flatten

/-- The task after the calls of `cs` made one after the other. -/
def life_end (E : Env P R) (fuel : Nat) :
    List (Call R) → priv_soap_task P R → priv_soap_task P R
  | [], task => task
  | c :: cs, task =>
    life_end E fuel cs
      (process_request E fuel { task with req := c.host task.req } c.state c.can_eat).task

/-- Every call of `cs`, made one after the other, returns `0`. -/
def all_return_zero (E : Env P R) (fuel : Nat) :
    List (Call R) → priv_soap_task P R → Prop
  | [], _ => True
  | c :: cs, task =>
    (process_request E fuel { task with req := c.host task.req } c.state c.can_eat).res =
        .ret 0 ∧
    all_return_zero E fuel cs
      (process_request E fuel { task with req := c.host task.req } c.state c.can_eat).task

/-- The targets a caller may ask for. -/
def is_target (s : soap_state) : Prop :=
  s = .HEADER_DONE ∨ s = .ACTION_AVAILABLE ∨ s = .BODY_DONE

instance (s : soap_state) : Decidable (is_target s) := by
  unfold is_target; infer_instance

/-- The consumer never un-sets a fact that is present. -/
def FactsKept (E : Env P R) : Prop :=
  ∀ (x : soap_req_xml P) (c : Chunk),
    (x.header.isSome → (E.soap_iter_f x c).2.header.isSome) ∧
    (x.action_name.isSome → (E.soap_iter_f x c).2.action_name.isSome) ∧
    (x.action_namespace.isSome → (E.soap_iter_f x c).2.action_namespace.isSome) ∧
    (x.body.isSome → (E.soap_iter_f x c).2.body.isSome)

/-- The state of a task is backed by its facts: `HEADER_DONE` and
`ACTION_AVAILABLE` are only ever entered by `read_iter_f`, on the facts it
found.  Holds of every task in state `NONE` or `INIT`. -/
def Backed (task : priv_soap_task P R) : Prop :=
  (task.state = .HEADER_DONE →
    task.req_xml.header.isSome ∨
    (task.req_xml.action_namespace.isSome ∧ task.req_xml.action_name.isSome) ∨
    task.req_xml.body.isSome) ∧
  (task.state = .ACTION_AVAILABLE →
    (task.req_xml.action_namespace.isSome ∧ task.req_xml.action_name.isSome) ∨
    task.req_xml.body.isSome)

end Lifetime

/-! ## Reading the event list -/

/-- One step of the state: it does not go down, and `FAILED` is kept. -/
def StateStep (a b : soap_state) : Prop := a ≤ b ∧ (a = .FAILED → b = .FAILED)

/-- The state after the last event of `evs`, starting from `s`. -/
def final_state (s : soap_state) (evs : List Ev) : soap_state :=
  evs.foldl (fun _ e => e.state) s

/-- The mode after the last event of `evs`, starting from `w`. -/
def final_what (w : vrb_what_e) (evs : List Ev) : vrb_what_e :=
  evs.foldl (fun _ e => e.what) w

/-- The result of the error check of lines 226-227. -/
def checked (r : Int) (old new : soap_state) : Int :=
  if r = 0 ∧ old = new then -1 else r

/-- One step of the mode, from an event to the next: the mode is kept by
every event but a `switch`, which takes it from `VRB_CACHED` to `VRB_REMAIN`. -/
def ModeStep (a b : Ev) : Prop :=
  (b.kind ≠ .switch ∧ b.what = a.what) ∨
  (b.kind = .switch ∧ a.what = .VRB_CACHED ∧ b.what = .VRB_REMAIN)

/-- One step of the mode inside a call made with `can_eat`: as `ModeStep`,
and a `switch` needs `can_eat` and comes right after the `pull` event of a
pass made in mode `VRB_CACHED` (which left the state the switch still has). -/
def SwitchStep (can_eat : Bool) (a b : Ev) : Prop :=
  (b.kind ≠ .switch ∧ b.what = a.what) ∨
  (b.kind = .switch ∧ b.what = .VRB_REMAIN ∧ can_eat = true ∧
    ∃ old r, a = ⟨.pull old r, b.state, .VRB_CACHED⟩)

/-- What the spec says of the mode switch, read on the events of a call: a
`switch` comes only after a pass that left the state as it found it. -/
def SwitchOnlyWithoutProgress (log : List Ev) : Prop :=
  List.Chain' (fun a b => b.kind = .switch → ∃ r, a.kind = .pull a.state r) log

/-- A bound on the loop bodies a run can still execute: two for each state
still above, one for the mode switch still possible. -/
def loop_measure {P R : Type} (can_eat : Bool) (task : priv_soap_task P R) : Nat :=
  2 * (5 - task.state.toNat) + (if task.vrb_what = .VRB_CACHED ∧ can_eat = true then 1 else 0)

/-- The number of `pull` events, that is of calls of `VRB_Iterate`. -/
def pulls (evs : List Ev) : Nat :=
  (evs.filter fun e => match e.kind with
    | .pull _ _ => true
    | _ => false).length

/-- The number of `switch` events. -/
def switches (evs : List Ev) : Nat :=
  (evs.filter fun e => decide (e.kind = .switch)).length

/-! ## A scripted environment, for concrete runs -/

/-- A consumer driven by the bytes of the chunk: `1` closes the header, `2`
resolves the action name, `3` the action namespace, `4` closes the body, `0`
is malformed input. -/
def script_feed : Int × soap_req_xml Unit → Nat → Int × soap_req_xml Unit
  | (err, x), 0 => (min err (-1), x)
  | (err, x), 1 => (err, { x with header := some "<Header/>" })
  | (err, x), 2 => (err, { x with action_name := some "DoThing" })
  | (err, x), 3 => (err, { x with action_namespace := some "urn:a" })
  | (err, x), 4 => (err, { x with body := some "<Body/>" })
  | (err, x), _ => (err, x)

/-- The scripted environment: the transport state is the list of passes
still to come, a pass being its chunks and its result; an exhausted
transport delivers nothing and returns `0`. -/
def script_env : Env Unit (List (List Chunk × Int)) where
  soap_iter_f := fun x c => c.ptr.foldl script_feed (0, x)
  init_req_xml := fun x => x
  VRB_Iterate := fun req _ =>
    match req with
    | [] => (([], 0), [])
    | p :: ps => (p, ps)
  body_none := fun _ => false
  evaluate_xpath := fun _ frag _ => frag

/-- The scripted environment when the transport reports no request body. -/
def script_env_no_body : Env Unit (List (List Chunk × Int)) :=
  { script_env with body_none := fun _ => true }

/-- A task in state `s` and mode `w` with no fact extracted yet, over a
scripted transport. -/
def script_task (s : soap_state) (w : vrb_what_e) (req : List (List Chunk × Int)) :
    priv_soap_task Unit (List (List Chunk × Int)) :=
  ⟨s, w, ⟨(), none, none, none, none⟩, req⟩

/-! ## Basic facts about the order and the callback -/

section Basics

variable {P R : Type}

theorem soap_state.le_def (a b : soap_state) : a ≤ b ↔ a.toNat ≤ b.toNat := Iff.rfl

theorem soap_state.lt_def (a b : soap_state) : a < b ↔ a.toNat < b.toNat := Iff.rfl

theorem soap_state.le_refl (a : soap_state) : a ≤ a := Nat.le_refl _

theorem soap_state.le_trans {a b c : soap_state} (h₁ : a ≤ b) (h₂ : b ≤ c) : a ≤ c :=
  Nat.le_trans h₁ h₂

theorem soap_state.le_failed (a : soap_state) : a ≤ .FAILED := by
  cases a <;> decide

theorem soap_state.failed_le {a : soap_state} (h : soap_state.FAILED ≤ a) : a = .FAILED := by
  cases a <;> first | rfl | exact absurd h (by decide)

theorem StateStep.of_le {a b : soap_state} (h : a ≤ b) : StateStep a b :=
  ⟨h, fun hf => soap_state.failed_le (hf ▸ h)⟩

theorem soap_state.toNat_inj {a b : soap_state} (h : a.toNat = b.toNat) : a = b := by
  cases a <;> cases b <;> first | rfl | exact absurd h (by decide)

/-- Along a chain of state steps the last state is not below the first. -/
theorem chain_states_final {s : soap_state} {l : List Ev}
    (h : List.Chain StateStep s (l.map Ev.state)) : s ≤ final_state s l := by
  induction l generalizing s with
  | nil => exact soap_state.le_refl _
  | cons e l ih =>
    simp only [List.map_cons, List.chain_cons] at h
    have := ih h.2
    simp only [final_state, List.foldl_cons] at this ⊢
    exact soap_state.le_trans h.1.1 this

theorem chain_states_append {s : soap_state} {l₁ l₂ : List Ev}
    (h₁ : List.Chain StateStep s (l₁.map Ev.state))
    (h₂ : List.Chain StateStep (final_state s l₁) (l₂.map Ev.state)) :
    List.Chain StateStep s ((l₁ ++ l₂).map Ev.state) := by
  induction l₁ generalizing s with
  | nil => simpa [final_state] using h₂
  | cons e l ih =>
    simp only [List.map_cons, List.chain_cons, List.cons_append] at h₁ ⊢
    exact ⟨h₁.1, ih h₁.2 (by simpa [final_state] using h₂)⟩

/-- The callback returns `0`, and touches neither the mode nor the transport;
a failed task is left as it is. -/
theorem read_iter_f_frame (E : Env P R) (task task1 : priv_soap_task P R) (c : Chunk)
    (i : Int) (h : read_iter_f E task c = some (i, task1)) :
    i = 0 ∧ task1.vrb_what = task.vrb_what ∧ task1.req = task.req ∧
      (task.state = .FAILED → task1 = task) := by
  dsimp only [read_iter_f] at h
  split_ifs at h <;> simp only [Option.some.injEq, Prod.mk.injEq] at h <;>
    obtain ⟨rfl, rfl⟩ := h <;> simp_all

/-- With a consumer that keeps its facts, the callback does not lower the
state of a backed task, and leaves it backed. -/
theorem read_iter_f_rise (E : Env P R) (hk : FactsKept E) (task task1 : priv_soap_task P R)
    (c : Chunk) (i : Int) (hb : Backed task) (h : read_iter_f E task c = some (i, task1)) :
    task.state ≤ task1.state ∧ Backed task1 := by
  obtain ⟨k1, k2, k3, k4⟩ := hk task.req_xml c
  obtain ⟨b1, b2⟩ := hb
  dsimp only [read_iter_f] at h
  split_ifs at h with h1 h2 h3 h4 h5 h6 <;>
    simp only [Option.some.injEq, Prod.mk.injEq] at h <;>
    obtain ⟨-, rfl⟩ := h
  · exact ⟨soap_state.le_refl _, b1, b2⟩
  · exact ⟨soap_state.le_failed _, by simp [Backed]⟩
  · refine ⟨?_, by simp [Backed]⟩
    simp only [not_not] at h2
    rcases h2 with h | h | h <;> rw [h] <;> dsimp only <;> decide
  · refine ⟨?_, by simp only [Backed]; simp_all⟩
    simp only [not_not] at h2
    rcases h2 with h | h | h <;> rw [h] <;> dsimp only <;> decide
  · refine ⟨?_, by simp only [Backed]; simp_all⟩
    simp only [not_not] at h2
    rcases h2 with h | h | h
    · rw [h]; dsimp only; decide
    · rw [h]; dsimp only; decide
    · exfalso
      rcases b2 h with ⟨x, y⟩ | x
      · exact h5 ⟨k3 x, k2 y⟩
      · exact h4 (k4 x)
  · refine ⟨soap_state.le_refl _, ?_, ?_⟩
    · intro hs
      exfalso
      rcases b1 hs with x | ⟨x, y⟩ | x
      · exact h6 (k1 x)
      · exact h5 ⟨k3 x, k2 y⟩
      · exact h4 (k4 x)
    · intro hs
      exfalso
      rcases b2 hs with ⟨x, y⟩ | x
      · exact h5 ⟨k3 x, k2 y⟩
      · exact h4 (k4 x)

/-- A pass leaves the mode and the transport alone, logs one `chunk` event
per callback, ends in the state of its last event, and, when no callback
aborts, returns the result of the host. -/
theorem iterate_chunks_frame (E : Env P R) (r : Int) (cs : List Chunk)
    (task : priv_soap_task P R) :
    (iterate_chunks E r cs task).2.1.vrb_what = task.vrb_what ∧
    (iterate_chunks E r cs task).2.1.req = task.req ∧
    final_state task.state (iterate_chunks E r cs task).2.2 =
      (iterate_chunks E r cs task).2.1.state ∧
    (∀ e ∈ (iterate_chunks E r cs task).2.2, e.kind = .chunk ∧ e.what = task.vrb_what) ∧
    (∀ i, (iterate_chunks E r cs task).1 = some i → i = r) ∧
    (task.state = .FAILED → (iterate_chunks E r cs task).2.1 = task) := by
  induction cs generalizing task with
  | nil => simp [iterate_chunks, final_state]
  | cons c cs ih =>
    simp only [iterate_chunks]
    cases h : read_iter_f E task c with
    | none => simp [final_state]
    | some p =>
      obtain ⟨i, task1⟩ := p
      obtain ⟨rfl, hw, hr, hf⟩ := read_iter_f_frame E task task1 c i h
      obtain ⟨i1, i2, i3, i4, i5, i6⟩ := ih task1
      simp only [ne_eq, not_true_eq_false, if_false]
      refine ⟨by rw [i1, hw], by rw [i2, hr], ?_, ?_, i5, ?_⟩
      · simpa [final_state] using i3
      · intro e he
        rcases List.mem_cons.1 he with rfl | he
        · exact ⟨rfl, hw⟩
        · exact hw ▸ i4 e he
      · intro hs
        have := hf hs
        subst this
        exact i6 hs

/-- With a consumer that keeps its facts, the states logged during a pass on
a backed task go up only, and the task stays backed. -/
theorem iterate_chunks_rise (E : Env P R) (hk : FactsKept E) (r : Int) (cs : List Chunk)
    (task : priv_soap_task P R) (hb : Backed task) :
    List.Chain StateStep task.state ((iterate_chunks E r cs task).2.2.map Ev.state) ∧
    Backed (iterate_chunks E r cs task).2.1 := by
  induction cs generalizing task with
  | nil => simpa [iterate_chunks] using hb
  | cons c cs ih =>
    simp only [iterate_chunks]
    cases h : read_iter_f E task c with
    | none => simpa using hb
    | some p =>
      obtain ⟨i, task1⟩ := p
      obtain ⟨rfl, -, -, -⟩ := read_iter_f_frame E task task1 c i h
      obtain ⟨hle, hb1⟩ := read_iter_f_rise E hk task task1 c 0 hb h
      obtain ⟨j1, j2⟩ := ih task1 hb1
      simp only [ne_eq, not_true_eq_false, if_false, List.map_cons, List.chain_cons]
      exact ⟨⟨StateStep.of_le hle, j1⟩, j2⟩

/-- The callback never leaves a task in state `NONE`. -/
theorem iterate_chunks_started (E : Env P R) (r : Int) (cs : List Chunk)
    (task : priv_soap_task P R) (h0 : task.state ≠ .NONE) :
    (iterate_chunks E r cs task).2.1.state ≠ .NONE := by
  induction cs generalizing task with
  | nil => simpa [iterate_chunks] using h0
  | cons c cs ih =>
    simp only [iterate_chunks]
    cases h : read_iter_f E task c with
    | none => simpa using h0
    | some p =>
      obtain ⟨i, task1⟩ := p
      obtain ⟨rfl, -, -, -⟩ := read_iter_f_frame E task task1 c i h
      simp only [ne_eq, not_true_eq_false, if_false]
      apply ih
      dsimp only [read_iter_f] at h
      split_ifs at h <;> simp only [Option.some.injEq, Prod.mk.injEq, true_and] at h <;>
        subst h <;> simp_all

/-! ## Unfolding the loop of `process_request` -/

theorem loop_done (E : Env P R) (state : soap_state) (can_eat : Bool) (fuel : Nat)
    (task : priv_soap_task P R) (h : ¬ task.state < state) :
    process_request_loop E state can_eat fuel task =
      ⟨.ret (if task.state = .FAILED then 1 else 0), task, []⟩ := by
  cases fuel <;> simp [process_request_loop, h]

theorem loop_zero (E : Env P R) (state : soap_state) (can_eat : Bool)
    (task : priv_soap_task P R) (h : task.state < state) :
    process_request_loop E state can_eat 0 task = ⟨.out_of_fuel, task, []⟩ := by
  simp [process_request_loop, h]

theorem loop_init (E : Env P R) (state : soap_state) (can_eat : Bool) (fuel : Nat)
    (task : priv_soap_task P R) (h : task.state < state) (hs : task.state = .NONE) :
    process_request_loop E state can_eat (fuel + 1) task =
      (process_request_loop E state can_eat fuel
        { task with
          req_xml := E.init_req_xml task.req_xml
          state := .INIT
          vrb_what := .VRB_CACHED }).after [⟨.init, .INIT, .VRB_CACHED⟩] := by
  rw [process_request_loop]
  have h' := h
  rw [hs] at h'
  simp [h', hs, process_init_read]

theorem loop_idle (E : Env P R) (state : soap_state) (can_eat : Bool) (fuel : Nat)
    (task : priv_soap_task P R) (h : task.state < state)
    (hs : task.state = .BODY_DONE ∨ task.state = .FAILED) :
    process_request_loop E state can_eat (fuel + 1) task =
      process_request_loop E state can_eat fuel task := by
  rw [process_request_loop]
  have h' := h
  rcases hs with hs | hs <;> rw [hs] at h' <;> simp [h', hs]

theorem loop_pull (E : Env P R) (state : soap_state) (can_eat : Bool) (fuel : Nat)
    (task : priv_soap_task P R) (h : task.state < state)
    (hs : task.state = .INIT ∨ task.state = .HEADER_DONE ∨ task.state = .ACTION_AVAILABLE) :
    process_request_loop E state can_eat (fuel + 1) task =
      match pull_pass E task with
      | (none, task1, evs) => ⟨.assert_failed, task1, evs⟩
      | (some r, task1, evs) =>
        if task1.vrb_what = .VRB_CACHED ∧ can_eat = true then
          (process_request_loop E state can_eat fuel
              { task1 with vrb_what := .VRB_REMAIN }).after
            (evs ++ [⟨.pull task.state r, task1.state, task1.vrb_what⟩] ++
              [⟨.switch, task1.state, .VRB_REMAIN⟩])
        else if (if r = 0 ∧ task.state = task1.state then -1 else r) ≠ 0 then
          ⟨.ret (if r = 0 ∧ task.state = task1.state then -1 else r),
            { task1 with state := .FAILED },
            evs ++ [⟨.pull task.state r, task1.state, task1.vrb_what⟩] ++
              [⟨.fail, .FAILED, task1.vrb_what⟩]⟩
        else
          (process_request_loop E state can_eat fuel task1).after
            (evs ++ [⟨.pull task.state r, task1.state, task1.vrb_what⟩]) := by
  rw [process_request_loop]
  have h' := h
  rcases hs with hs | hs | hs <;> rw [hs] at h' <;> simp only [h', hs, if_true]

theorem checked_eq_zero {r : Int} {old new : soap_state} :
    checked r old new = 0 ↔ r = 0 ∧ old ≠ new := by
  unfold checked
  split_ifs with h
  · simp only [Int.reduceNeg, neg_eq_zero, one_ne_zero, ne_eq, false_iff, not_and, not_not]
    exact fun _ => h.2
  · constructor
    · intro hr
      exact ⟨hr, fun ho => h ⟨hr, ho⟩⟩
    · exact fun hr => hr.1

/-- Rule induction over the runs of the loop: a property of (task, run) that
holds of the runs that stop at once, and is carried through each kind of loop
body, holds of every run. -/
theorem loop_induct (E : Env P R) (state : soap_state) (can_eat : Bool)
    (Q : priv_soap_task P R → Run Int P R → Prop)
    (done : ∀ task, ¬ task.state < state →
      Q task ⟨.ret (if task.state = .FAILED then 1 else 0), task, []⟩)
    (zero : ∀ task, task.state < state → Q task ⟨.out_of_fuel, task, []⟩)
    (init : ∀ task run, task.state < state → task.state = .NONE →
      Q { task with
          req_xml := E.init_req_xml task.req_xml
          state := .INIT
          vrb_what := .VRB_CACHED } run →
      Q task (run.after [⟨.init, .INIT, .VRB_CACHED⟩]))
    (abort : ∀ task task1 evs, task.state < state →
      (task.state = .INIT ∨ task.state = .HEADER_DONE ∨ task.state = .ACTION_AVAILABLE) →
      pull_pass E task = (none, task1, evs) → Q task ⟨.assert_failed, task1, evs⟩)
    (switch : ∀ task r task1 evs run, task.state < state →
      (task.state = .INIT ∨ task.state = .HEADER_DONE ∨ task.state = .ACTION_AVAILABLE) →
      pull_pass E task = (some r, task1, evs) →
      task1.vrb_what = .VRB_CACHED → can_eat = true →
      Q { task1 with vrb_what := .VRB_REMAIN } run →
      Q task (run.after (evs ++ [⟨.pull task.state r, task1.state, task1.vrb_what⟩] ++
        [⟨.switch, task1.state, .VRB_REMAIN⟩])))
    (fail : ∀ task r task1 evs, task.state < state →
      (task.state = .INIT ∨ task.state = .HEADER_DONE ∨ task.state = .ACTION_AVAILABLE) →
      pull_pass E task = (some r, task1, evs) →
      ¬ (task1.vrb_what = .VRB_CACHED ∧ can_eat = true) →
      checked r task.state task1.state ≠ 0 →
      Q task ⟨.ret (checked r task.state task1.state), { task1 with state := .FAILED },
        evs ++ [⟨.pull task.state r, task1.state, task1.vrb_what⟩] ++
          [⟨.fail, .FAILED, task1.vrb_what⟩]⟩)
    (next : ∀ task r task1 evs run, task.state < state →
      (task.state = .INIT ∨ task.state = .HEADER_DONE ∨ task.state = .ACTION_AVAILABLE) →
      pull_pass E task = (some r, task1, evs) →
      ¬ (task1.vrb_what = .VRB_CACHED ∧ can_eat = true) →
      r = 0 → task.state ≠ task1.state →
      Q task1 run →
      Q task (run.after (evs ++ [⟨.pull task.state r, task1.state, task1.vrb_what⟩])))
    (fuel : Nat) (task : priv_soap_task P R) :
    Q task (process_request_loop E state can_eat fuel task) := by
  induction fuel generalizing task with
  | zero =>
    by_cases h : task.state < state
    · rw [loop_zero E state can_eat task h]; exact zero task h
    · rw [loop_done E state can_eat 0 task h]; exact done task h
  | succ fuel ih =>
    by_cases h : task.state < state
    · have hcases : task.state = .NONE ∨
          (task.state = .BODY_DONE ∨ task.state = .FAILED) ∨
          (task.state = .INIT ∨ task.state = .HEADER_DONE ∨
            task.state = .ACTION_AVAILABLE) := by
        cases task.state <;> simp
      rcases hcases with hs | hs | hs
      · rw [loop_init E state can_eat fuel task h hs]
        exact init task _ h hs (ih _)
      · rw [loop_idle E state can_eat fuel task h hs]
        exact ih task
      · rw [loop_pull E state can_eat fuel task h hs]
        rcases hp : pull_pass E task with ⟨o, task1, evs⟩
        cases o with
        | none => exact abort task task1 evs h hs hp
        | some r =>
          dsimp only
          by_cases hsw : task1.vrb_what = .VRB_CACHED ∧ can_eat = true
          · rw [if_pos hsw]
            exact switch task r task1 evs _ h hs hp hsw.1 hsw.2 (ih _)
          · rw [if_neg hsw]
            by_cases hc : checked r task.state task1.state = 0
            · have hc' := hc
              unfold checked at hc'
              rw [if_neg (by simpa using hc')]
              obtain ⟨hr, hne⟩ := checked_eq_zero.1 hc
              exact next task r task1 evs _ h hs hp hsw hr hne (ih _)
            · have hc' := hc
              unfold checked at hc'
              rw [if_pos hc']
              exact fail task r task1 evs h hs hp hsw hc
    · rw [loop_done E state can_eat (fuel + 1) task h]; exact done task h

/-! ## What a pass and a run keep -/

theorem pull_pass_frame (E : Env P R) (task task1 : priv_soap_task P R) (o : Option Int)
    (evs : List Ev) (hp : pull_pass E task = (o, task1, evs)) :
    task1.vrb_what = task.vrb_what ∧
    task1.req = (E.VRB_Iterate task.req task.vrb_what).2 ∧
    final_state task.state evs = task1.state ∧
    (∀ e ∈ evs, e.kind = .chunk ∧ e.what = task.vrb_what) ∧
    (∀ i, o = some i → i = (E.VRB_Iterate task.req task.vrb_what).1.2) ∧
    (task.state ≠ .NONE → task1.state ≠ .NONE) := by
  unfold pull_pass at hp
  dsimp only at hp
  have hf := iterate_chunks_frame E (E.VRB_Iterate task.req task.vrb_what).1.2
    (E.VRB_Iterate task.req task.vrb_what).1.1
    { task with req := (E.VRB_Iterate task.req task.vrb_what).2 }
  have hs := iterate_chunks_started E (E.VRB_Iterate task.req task.vrb_what).1.2
    (E.VRB_Iterate task.req task.vrb_what).1.1
    { task with req := (E.VRB_Iterate task.req task.vrb_what).2 }
  rw [hp] at hf hs
  exact ⟨hf.1, hf.2.1, hf.2.2.1, hf.2.2.2.1, hf.2.2.2.2.1, hs⟩

theorem pull_pass_rise (E : Env P R) (hk : FactsKept E) (task task1 : priv_soap_task P R)
    (o : Option Int) (evs : List Ev) (hb : Backed task)
    (hp : pull_pass E task = (o, task1, evs)) :
    List.Chain StateStep task.state (evs.map Ev.state) ∧ Backed task1 := by
  unfold pull_pass at hp
  dsimp only at hp
  have hr := iterate_chunks_rise E hk (E.VRB_Iterate task.req task.vrb_what).1.2
    (E.VRB_Iterate task.req task.vrb_what).1.1
    { task with req := (E.VRB_Iterate task.req task.vrb_what).2 } hb
  rw [hp] at hr
  exact hr

theorem final_what_chunks (w : vrb_what_e) (evs : List Ev)
    (h : ∀ e ∈ evs, e.kind = .chunk ∧ e.what = w) : final_what w evs = w := by
  induction evs with
  | nil => rfl
  | cons e l ih =>
    have he := (h e (List.mem_cons_self _ _)).2
    have := ih fun x hx => h x (List.mem_cons_of_mem _ hx)
    simp only [final_what, List.foldl_cons] at this ⊢
    rw [he]
    exact this

/-- A run of the loop ends in the state and the mode of its last event (so
every change of `task->state` and `task->vrb_what` is an event), and never
goes back to `NONE`. -/
theorem loop_frame (E : Env P R) (state : soap_state) (can_eat : Bool) (fuel : Nat)
    (task : priv_soap_task P R) :
    final_state task.state (process_request_loop E state can_eat fuel task).log =
      (process_request_loop E state can_eat fuel task).task.state ∧
    final_what task.vrb_what (process_request_loop E state can_eat fuel task).log =
      (process_request_loop E state can_eat fuel task).task.vrb_what ∧
    (task.state ≠ .NONE →
      (process_request_loop E state can_eat fuel task).task.state ≠ .NONE) := by
  refine loop_induct E state can_eat
    (fun task run => final_state task.state run.log = run.task.state ∧
      final_what task.vrb_what run.log = run.task.vrb_what ∧
      (task.state ≠ .NONE → run.task.state ≠ .NONE))
    ?_ ?_ ?_ ?_ ?_ ?_ ?_ fuel task
  · intro task _
    exact ⟨rfl, rfl, id⟩
  · intro task _
    exact ⟨rfl, rfl, id⟩
  · intro task run _ hs ih
    refine ⟨?_, ?_, fun h => absurd hs h⟩
    · simpa [Run.after, final_state] using ih.1
    · simpa [Run.after, final_what] using ih.2.1
  · intro task task1 evs _ _ hp
    obtain ⟨f1, -, f3, f4, -, f6⟩ := pull_pass_frame E task task1 none evs hp
    exact ⟨f3, by rw [final_what_chunks _ _ f4, f1], f6⟩
  · intro task r task1 evs run _ _ hp _ _ ih
    obtain ⟨-, -, -, -, -, f6⟩ := pull_pass_frame E task task1 (some r) evs hp
    refine ⟨?_, ?_, fun h => ih.2.2 (f6 h)⟩
    · simpa [Run.after, final_state, List.foldl_append] using ih.1
    · simpa [Run.after, final_what, List.foldl_append] using ih.2.1
  · intro task r task1 evs _ _ hp _ _
    refine ⟨?_, ?_, fun _ => by simp⟩
    · simp [final_state, List.foldl_append]
    · simp [final_what, List.foldl_append]
  · intro task r task1 evs run _ _ hp _ _ _ ih
    obtain ⟨-, -, -, -, -, f6⟩ := pull_pass_frame E task task1 (some r) evs hp
    refine ⟨?_, ?_, fun h => ih.2.2 (f6 h)⟩
    · simpa [Run.after, final_state, List.foldl_append] using ih.1
    · simpa [Run.after, final_what, List.foldl_append] using ih.2.1

/-- With a consumer that keeps its facts, the states logged by a run of the
loop on a backed task go up only, and the task stays backed. -/
theorem loop_rise (E : Env P R) (hk : FactsKept E) (state : soap_state) (can_eat : Bool)
    (fuel : Nat) (task : priv_soap_task P R) (hb : Backed task) :
    List.Chain StateStep task.state
      ((process_request_loop E state can_eat fuel task).log.map Ev.state) ∧
    Backed (process_request_loop E state can_eat fuel task).task := by
  refine loop_induct E state can_eat
    (fun task run => Backed task →
      List.Chain StateStep task.state (run.log.map Ev.state) ∧ Backed run.task)
    ?_ ?_ ?_ ?_ ?_ ?_ ?_ fuel task hb
  · intro task _ hb
    exact ⟨List.Chain.nil, hb⟩
  · intro task _ hb
    exact ⟨List.Chain.nil, hb⟩
  · intro task run _ hs ih _
    obtain ⟨i1, i2⟩ := ih (by simp [Backed])
    refine ⟨?_, i2⟩
    simp only [Run.after, List.singleton_append, List.map_cons, List.chain_cons]
    exact ⟨StateStep.of_le (by rw [hs]; decide), i1⟩
  · intro task task1 evs _ _ hp hb
    exact pull_pass_rise E hk task task1 none evs hb hp
  · intro task r task1 evs run _ _ hp _ _ ih hb
    obtain ⟨c1, b1⟩ := pull_pass_rise E hk task task1 (some r) evs hb hp
    obtain ⟨-, -, f3, -, -, -⟩ := pull_pass_frame E task task1 (some r) evs hp
    obtain ⟨i1, i2⟩ := ih b1
    refine ⟨?_, i2⟩
    simp only [Run.after, List.append_assoc]
    refine chain_states_append c1 ?_
    rw [f3]
    simp only [List.singleton_append, List.cons_append, List.nil_append, List.map_cons,
      List.chain_cons]
    exact ⟨StateStep.of_le (soap_state.le_refl _), StateStep.of_le (soap_state.le_refl _), i1⟩
  · intro task r task1 evs _ _ hp _ _ hb
    obtain ⟨c1, -⟩ := pull_pass_rise E hk task task1 (some r) evs hb hp
    obtain ⟨-, -, f3, -, -, -⟩ := pull_pass_frame E task task1 (some r) evs hp
    refine ⟨?_, by simp [Backed]⟩
    simp only [List.append_assoc]
    refine chain_states_append c1 ?_
    rw [f3]
    simp only [List.singleton_append, List.map_cons, List.map_nil, List.chain_cons]
    exact ⟨StateStep.of_le (soap_state.le_refl _), StateStep.of_le (soap_state.le_failed _),
      List.Chain.nil⟩
  · intro task r task1 evs run _ _ hp _ _ _ ih hb
    obtain ⟨c1, b1⟩ := pull_pass_rise E hk task task1 (some r) evs hb hp
    obtain ⟨-, -, f3, -, -, -⟩ := pull_pass_frame E task task1 (some r) evs hp
    obtain ⟨i1, i2⟩ := ih b1
    refine ⟨?_, i2⟩
    simp only [Run.after, List.append_assoc]
    refine chain_states_append c1 ?_
    rw [f3]
    simp only [List.singleton_append, List.map_cons, List.chain_cons]
    exact ⟨StateStep.of_le (soap_state.le_refl _), i1⟩

theorem process_request_frame (E : Env P R) (fuel : Nat) (task : priv_soap_task P R)
    (state : soap_state) (can_eat : Bool) :
    final_state task.state (process_request E fuel task state can_eat).log =
      (process_request E fuel task state can_eat).task.state ∧
    final_what task.vrb_what (process_request E fuel task state can_eat).log =
      (process_request E fuel task state can_eat).task.vrb_what ∧
    (task.state ≠ .NONE →
      (process_request E fuel task state can_eat).task.state ≠ .NONE) := by
  unfold process_request
  split_ifs
  · exact ⟨rfl, rfl, id⟩
  · exact loop_frame E state can_eat fuel task

theorem process_request_rise (E : Env P R) (hk : FactsKept E) (fuel : Nat)
    (task : priv_soap_task P R) (state : soap_state) (can_eat : Bool) (hb : Backed task) :
    List.Chain StateStep task.state
      ((process_request E fuel task state can_eat).log.map Ev.state) ∧
    Backed (process_request E fuel task state can_eat).task := by
  unfold process_request
  split_ifs
  · exact ⟨List.Chain.nil, hb⟩
  · exact loop_rise E hk state can_eat fuel task hb

theorem events_nil : events ([] : List (Call R × Run Int P R)) = [] := rfl

theorem events_cons (c : Call R) (run : Run Int P R) (rest : List (Call R × Run Int P R)) :
    events ((c, run) :: rest) = run.log ++ events rest := by
  simp [events]

/-- The runs of a life, one case per way the first call can end. -/
theorem lifetime_cons (E : Env P R) (fuel : Nat) (c : Call R) (cs : List (Call R))
    (task : priv_soap_task P R) :
    lifetime E fuel (c :: cs) task =
        [(c, process_request E fuel { task with req := c.host task.req } c.state c.can_eat)] ∨
    lifetime E fuel (c :: cs) task =
        (c, process_request E fuel { task with req := c.host task.req } c.state c.can_eat) ::
          lifetime E fuel cs
            (process_request E fuel { task with req := c.host task.req }
              c.state c.can_eat).task := by
  simp only [lifetime]
  cases (process_request E fuel { task with req := c.host task.req } c.state c.can_eat).res <;>
    simp

theorem lifetime_rise (E : Env P R) (hk : FactsKept E) (fuel : Nat) (calls : List (Call R))
    (task : priv_soap_task P R) (hb : Backed task) :
    List.Chain StateStep task.state ((events (lifetime E fuel calls task)).map Ev.state) := by
  induction calls generalizing task with
  | nil => exact List.Chain.nil
  | cons c cs ih =>
    have hb' : Backed { task with req := c.host task.req } := hb
    obtain ⟨r1, r2⟩ := process_request_rise E hk fuel _ c.state c.can_eat hb'
    obtain ⟨f1, -, -⟩ :=
      process_request_frame E fuel { task with req := c.host task.req } c.state c.can_eat
    rcases lifetime_cons E fuel c cs task with h | h <;> rw [h, events_cons]
    · simpa [events_nil] using r1
    · refine chain_states_append r1 ?_
      rw [f1]
      exact ih _ r2

end Basics

/-! ## The scripted environment keeps its facts -/

theorem script_feed_kept (acc : Int × soap_req_xml Unit) (n : Nat) :
    (acc.2.header.isSome → (script_feed acc n).2.header.isSome) ∧
    (acc.2.action_name.isSome → (script_feed acc n).2.action_name.isSome) ∧
    (acc.2.action_namespace.isSome → (script_feed acc n).2.action_namespace.isSome) ∧
    (acc.2.body.isSome → (script_feed acc n).2.body.isSome) := by
  obtain ⟨err, x⟩ := acc
  rcases n with _ | _ | _ | _ | _ | n <;> simp [script_feed]

theorem script_fold_kept (l : List Nat) (acc : Int × soap_req_xml Unit) :
    (acc.2.header.isSome → (l.foldl script_feed acc).2.header.isSome) ∧
    (acc.2.action_name.isSome → (l.foldl script_feed acc).2.action_name.isSome) ∧
    (acc.2.action_namespace.isSome → (l.foldl script_feed acc).2.action_namespace.isSome) ∧
    (acc.2.body.isSome → (l.foldl script_feed acc).2.body.isSome) := by
  induction l generalizing acc with
  | nil => simp
  | cons n l ih =>
    obtain ⟨a1, a2, a3, a4⟩ := script_feed_kept acc n
    obtain ⟨b1, b2, b3, b4⟩ := ih (script_feed acc n)
    exact ⟨fun h => b1 (a1 h), fun h => b2 (a2 h), fun h => b3 (a3 h), fun h => b4 (a4 h)⟩

theorem script_env_kept : FactsKept script_env :=
  fun x c => script_fold_kept c.ptr (0, x)

/-! ## Single calls -/

section Calls

variable {P R : Type}

theorem process_request_no_body (E : Env P R) (fuel : Nat) (task : priv_soap_task P R)
    (state : soap_state) (can_eat : Bool) (h : E.body_none task.req = true) :
    process_request E fuel task state can_eat = ⟨.ret (-1), task, []⟩ := by
  simp [process_request, h]

theorem process_request_body (E : Env P R) (fuel : Nat) (task : priv_soap_task P R)
    (state : soap_state) (can_eat : Bool) (h : E.body_none task.req = false) :
    process_request E fuel task state can_eat =
      process_request_loop E state can_eat fuel task := by
  simp [process_request, h]

/-- A call on a failed session: no loop body runs. -/
theorem process_request_failed (E : Env P R) (fuel : Nat) (task : priv_soap_task P R)
    (state : soap_state) (can_eat : Bool) (hf : task.state = .FAILED) :
    process_request E fuel task state can_eat =
      ⟨.ret (if E.body_none task.req = true then -1 else 1), task, []⟩ := by
  unfold process_request
  split_ifs with h
  · rfl
  · rw [loop_done E state can_eat fuel task (by rw [hf]; cases state <;> decide)]
    simp [hf]

theorem run_value_ret {α β : Type} (a : α) (task : priv_soap_task P R) (log : List Ev)
    (f : α → priv_soap_task P R → β) :
    (Run.mk (Res.ret a) task log).value f = ⟨.ret (f a task), task, log⟩ := rfl

theorem run_after_res {α : Type} (evs : List Ev) (run : Run α P R) :
    (run.after evs).res = run.res := rfl

/-- What a return of the loop says about the state it leaves. -/
theorem loop_post (E : Env P R) (state : soap_state) (can_eat : Bool) (fuel : Nat)
    (task : priv_soap_task P R) (r : Int)
    (h : (process_request_loop E state can_eat fuel task).res = .ret r) :
    (r = 0 ↔ (process_request_loop E state can_eat fuel task).task.state ≠ .FAILED ∧
      state ≤ (process_request_loop E state can_eat fuel task).task.state) ∧
    (r ≠ 0 → (process_request_loop E state can_eat fuel task).task.state = .FAILED) := by
  refine loop_induct E state can_eat
    (fun _ run => ∀ r, run.res = .ret r →
      (r = 0 ↔ run.task.state ≠ .FAILED ∧ state ≤ run.task.state) ∧
      (r ≠ 0 → run.task.state = .FAILED))
    ?_ ?_ ?_ ?_ ?_ ?_ ?_ fuel task r h
  · intro task hn r hr
    have hle : state ≤ task.state := Nat.le_of_not_lt hn
    simp only [Res.ret.injEq] at hr
    subst hr
    by_cases hf : task.state = .FAILED <;> simp [hf, hle]
  · intro task _ r hr
    cases hr
  · intro task run _ _ ih r hr
    exact ih r hr
  · intro task task1 evs _ _ _ r hr
    cases hr
  · intro task r0 task1 evs run _ _ _ _ _ ih r hr
    exact ih r hr
  · intro task r0 task1 evs _ _ _ _ hc r hr
    simp only [Res.ret.injEq] at hr
    subst hr
    simp [hc]
  · intro task r0 task1 evs run _ _ _ _ _ _ ih r hr
    exact ih r hr

theorem pulls_chunks (evs : List Ev) (w : vrb_what_e)
    (h : ∀ e ∈ evs, e.kind = .chunk ∧ e.what = w) : pulls evs = 0 := by
  unfold pulls
  rw [List.length_eq_zero, List.filter_eq_nil_iff]
  intro e he
  rw [(h e he).1]
  simp

theorem pulls_append (l₁ l₂ : List Ev) : pulls (l₁ ++ l₂) = pulls l₁ + pulls l₂ := by
  simp [pulls, List.filter_append]

/-- The loop body on a pass that is not followed by the mode switch and
fails the check of lines 226-231. -/
theorem loop_pull_fail (E : Env P R) (state : soap_state) (can_eat : Bool) (fuel : Nat)
    (task task1 : priv_soap_task P R) (r : Int) (evs : List Ev)
    (hlt : task.state < state)
    (hs : task.state = .INIT ∨ task.state = .HEADER_DONE ∨ task.state = .ACTION_AVAILABLE)
    (hp : pull_pass E task = (some r, task1, evs))
    (hno : can_eat = false ∨ task.vrb_what = .VRB_REMAIN)
    (hc : checked r task.state task1.state ≠ 0) :
    process_request_loop E state can_eat (fuel + 1) task =
      ⟨.ret (checked r task.state task1.state), { task1 with state := .FAILED },
        evs ++ [⟨.pull task.state r, task1.state, task1.vrb_what⟩] ++
          [⟨.fail, .FAILED, task1.vrb_what⟩]⟩ := by
  obtain ⟨f1, -⟩ := pull_pass_frame E task task1 (some r) evs hp
  have hsw : ¬ (task1.vrb_what = .VRB_CACHED ∧ can_eat = true) := by
    rintro ⟨h1, h2⟩
    rcases hno with h | h
    · rw [h] at h2; cases h2
    · rw [f1, h] at h1; cases h1
  rw [loop_pull E state can_eat fuel task hlt hs, hp]
  dsimp only
  rw [if_neg hsw]
  have hc' := hc
  unfold checked at hc' ⊢
  rw [if_pos hc']

/-- The loop body on a pass followed by the mode switch. -/
theorem loop_pull_switch (E : Env P R) (state : soap_state) (fuel : Nat)
    (task task1 : priv_soap_task P R) (r : Int) (evs : List Ev)
    (hlt : task.state < state)
    (hs : task.state = .INIT ∨ task.state = .HEADER_DONE ∨ task.state = .ACTION_AVAILABLE)
    (hp : pull_pass E task = (some r, task1, evs))
    (hw : task.vrb_what = .VRB_CACHED) :
    process_request_loop E state true (fuel + 1) task =
      (process_request_loop E state true fuel { task1 with vrb_what := .VRB_REMAIN }).after
        (evs ++ [⟨.pull task.state r, task1.state, .VRB_CACHED⟩] ++
          [⟨.switch, task1.state, .VRB_REMAIN⟩]) := by
  obtain ⟨f1, -⟩ := pull_pass_frame E task task1 (some r) evs hp
  rw [loop_pull E state true fuel task hlt hs, hp]
  dsimp only
  rw [if_pos ⟨by rw [f1, hw], rfl⟩, f1, hw]

/-- The loop body on a pass that is not followed by the mode switch and
passes the check of lines 226-231. -/
theorem loop_pull_next (E : Env P R) (state : soap_state) (can_eat : Bool) (fuel : Nat)
    (task task1 : priv_soap_task P R) (evs : List Ev)
    (hlt : task.state < state)
    (hs : task.state = .INIT ∨ task.state = .HEADER_DONE ∨ task.state = .ACTION_AVAILABLE)
    (hp : pull_pass E task = (some 0, task1, evs))
    (hno : can_eat = false ∨ task.vrb_what = .VRB_REMAIN)
    (hne : task.state ≠ task1.state) :
    process_request_loop E state can_eat (fuel + 1) task =
      (process_request_loop E state can_eat fuel task1).after
        (evs ++ [⟨.pull task.state 0, task1.state, task1.vrb_what⟩]) := by
  obtain ⟨f1, -⟩ := pull_pass_frame E task task1 (some 0) evs hp
  have hsw : ¬ (task1.vrb_what = .VRB_CACHED ∧ can_eat = true) := by
    rintro ⟨h1, h2⟩
    rcases hno with h | h
    · rw [h] at h2; cases h2
    · rw [f1, h] at h1; cases h1
  rw [loop_pull E state can_eat fuel task hlt hs, hp]
  dsimp only
  rw [if_neg hsw, if_neg]
  simp [hne]

/-- A call that returns `0` leaves the state at or above its target and not
`FAILED`. -/
theorem process_request_zero (E : Env P R) (fuel : Nat) (task : priv_soap_task P R)
    (state : soap_state) (can_eat : Bool)
    (h : (process_request E fuel task state can_eat).res = .ret 0) :
    state ≤ (process_request E fuel task state can_eat).task.state ∧
    (process_request E fuel task state can_eat).task.state ≠ .FAILED := by
  by_cases hb0 : E.body_none task.req = true
  · rw [process_request_no_body E fuel task state can_eat hb0] at h
    cases h
  · have hb1 : E.body_none task.req = false := by simpa using hb0
    rw [process_request_body E fuel task state can_eat hb1] at h ⊢
    exact ((loop_post E state can_eat fuel task 0 h).1.1 rfl).symm

/-- A state at or above `S` and not `FAILED` is kept so by every call that
returns `0`, whatever its target. -/
theorem process_request_keeps_reached (E : Env P R) (fuel : Nat)
    (task : priv_soap_task P R) (S state : soap_state) (can_eat : Bool)
    (hS : S ≤ task.state)
    (h : (process_request E fuel task state can_eat).res = .ret 0) :
    S ≤ (process_request E fuel task state can_eat).task.state ∧
    (process_request E fuel task state can_eat).task.state ≠ .FAILED := by
  obtain ⟨h1, h2⟩ := process_request_zero E fuel task state can_eat h
  refine ⟨?_, h2⟩
  by_cases hlt : task.state < state
  · exact soap_state.le_trans (soap_state.le_trans hS (Nat.le_of_lt hlt)) h1
  · by_cases hb0 : E.body_none task.req = true
    · rw [process_request_no_body E fuel task state can_eat hb0]
      exact hS
    · have hb1 : E.body_none task.req = false := by simpa using hb0
      rw [process_request_body E fuel task state can_eat hb1,
        loop_done E state can_eat fuel task hlt]
      exact hS

/-- After calls that all return `0`, a state that was at or above `S` and not
`FAILED` still is. -/
theorem life_end_reached (E : Env P R) (fuel : Nat) (S : soap_state)
    (calls : List (Call R)) (task : priv_soap_task P R)
    (hS : S ≤ task.state) (hf : task.state ≠ .FAILED)
    (hall : all_return_zero E fuel calls task) :
    S ≤ (life_end E fuel calls task).state ∧ (life_end E fuel calls task).state ≠ .FAILED := by
  induction calls generalizing task with
  | nil => exact ⟨hS, hf⟩
  | cons c cs ih =>
    obtain ⟨h0, hrest⟩ := hall
    have hS' : S ≤ ({ task with req := c.host task.req } : priv_soap_task P R).state := hS
    obtain ⟨k1, k2⟩ := process_request_keeps_reached E fuel _ S c.state c.can_eat hS' h0
    exact ih _ k1 k2 hrest

end Calls

/-! ## The loop stops -/

section Stops

variable {P R : Type}

theorem loop_measure_le (can_eat : Bool) (task : priv_soap_task P R) :
    loop_measure can_eat task ≤ 11 := by
  unfold loop_measure
  split_ifs <;> omega

/-- With a target the callers use, a consumer that keeps its facts and a
backed task, the loop does not run out of loop bodies once it is given
`loop_measure` of them: every loop body that does not end the run either
initialises, or switches the mode, or raises the state. -/
theorem loop_returns (E : Env P R) (hk : FactsKept E) (state : soap_state) (can_eat : Bool)
    (ht : is_target state) (fuel : Nat) (task : priv_soap_task P R) (hb : Backed task)
    (hm : loop_measure can_eat task ≤ fuel) :
    (process_request_loop E state can_eat fuel task).res ≠ .out_of_fuel := by
  induction fuel generalizing task with
  | zero =>
    have h5 : ¬ task.state < state := by
      unfold loop_measure at hm
      have : task.state.toNat = 5 := by
        have := hm
        cases hst : task.state <;> simp [hst, soap_state.toNat] at this ⊢
      rw [soap_state.lt_def, this]
      rcases ht with h | h | h <;> rw [h] <;> decide
    rw [loop_done E state can_eat 0 task h5]
    simp
  | succ fuel ih =>
    by_cases h : task.state < state
    · have hcases : task.state = .NONE ∨
          (task.state = .BODY_DONE ∨ task.state = .FAILED) ∨
          (task.state = .INIT ∨ task.state = .HEADER_DONE ∨
            task.state = .ACTION_AVAILABLE) := by
        cases task.state <;> simp
      rcases hcases with hs | hs | hs
      · rw [loop_init E state can_eat fuel task h hs, run_after_res]
        apply ih _ (by simp [Backed])
        unfold loop_measure at hm ⊢
        rw [hs] at hm
        simp only [soap_state.toNat] at hm ⊢
        split_ifs at hm ⊢ <;> omega
      · exfalso
        rw [soap_state.lt_def] at h
        rcases hs with hs | hs <;> rw [hs] at h <;>
          rcases ht with ht | ht | ht <;> rw [ht] at h <;> exact absurd h (by decide)
      · rw [loop_pull E state can_eat fuel task h hs]
        rcases hp : pull_pass E task with ⟨o, task1, evs⟩
        obtain ⟨f1, -, f3, -, -, -⟩ := pull_pass_frame E task task1 o evs hp
        obtain ⟨c1, b1⟩ := pull_pass_rise E hk task task1 o evs hb hp
        have hle : task.state ≤ task1.state := by
          rw [← f3]
          exact chain_states_final c1
        cases o with
        | none => simp
        | some r =>
          dsimp only
          by_cases hsw : task1.vrb_what = .VRB_CACHED ∧ can_eat = true
          · rw [if_pos hsw, run_after_res]
            refine ih { task1 with vrb_what := .VRB_REMAIN } b1 ?_
            rw [soap_state.le_def] at hle
            unfold loop_measure at hm ⊢
            rw [← f1, if_pos hsw] at hm
            dsimp only
            rw [if_neg (by simp)]
            omega
          · rw [if_neg hsw]
            by_cases hc : checked r task.state task1.state = 0
            · have hc' := hc
              unfold checked at hc'
              rw [if_neg (by simpa using hc'), run_after_res]
              obtain ⟨-, hne⟩ := checked_eq_zero.1 hc
              refine ih task1 b1 ?_
              have hlt : task.state.toNat < task1.state.toNat := by
                rw [soap_state.le_def] at hle
                have : task.state.toNat ≠ task1.state.toNat := fun he =>
                  hne (soap_state.toNat_inj he)
                omega
              have h5 : task1.state.toNat ≤ 5 := soap_state.le_failed _
              unfold loop_measure at hm ⊢
              rw [f1]
              split_ifs at hm ⊢ <;> omega
            · have hc' := hc
              unfold checked at hc'
              rw [if_pos hc']
              simp
    · rw [loop_done E state can_eat (fuel + 1) task h]
      simp

end Stops

/-! ## The delivery mode over a run and over a life -/

section Modes

variable {P R : Type}

theorem SwitchStep.mode {can_eat : Bool} {a b : Ev} (h : SwitchStep can_eat a b) :
    ModeStep a b := by
  rcases h with h | ⟨h1, h2, -, old, r, rfl⟩
  · exact Or.inl h
  · exact Or.inr ⟨h1, rfl, h2⟩

/-- The last event of `l`, or `e0` when there is none. -/
theorem last_what (e0 : Ev) (l : List Ev) :
    (l.foldl (fun _ e => e) e0).what = final_what e0.what l := by
  induction l generalizing e0 with
  | nil => rfl
  | cons e l ih => simpa [final_what] using ih e

theorem chain_append_last {r : Ev → Ev → Prop} {a : Ev} {l₁ l₂ : List Ev}
    (h₁ : List.Chain r a l₁) (h₂ : List.Chain r (l₁.foldl (fun _ e => e) a) l₂) :
    List.Chain r a (l₁ ++ l₂) := by
  induction l₁ generalizing a with
  | nil => simpa using h₂
  | cons e l ih =>
    simp only [List.chain_cons, List.cons_append] at h₁ ⊢
    exact ⟨h₁.1, ih h₁.2 (by simpa using h₂)⟩

theorem chain_to_chain' {r : Ev → Ev → Prop} {a : Ev} {l : List Ev} (h : List.Chain r a l) :
    List.Chain' r l := by
  cases l with
  | nil => trivial
  | cons b l => exact (List.chain_cons.1 h).2

/-- The `chunk` events of a pass keep the mode, so a chain goes through them. -/
theorem chain_through_chunks (can_eat : Bool) (w : vrb_what_e) (evs rest : List Ev)
    (h : ∀ e ∈ evs, e.kind = .chunk ∧ e.what = w)
    (hrest : ∀ e1 : Ev, e1.what = w → List.Chain (SwitchStep can_eat) e1 rest)
    (e0 : Ev) (h0 : e0.what = w) :
    List.Chain (SwitchStep can_eat) e0 (evs ++ rest) := by
  induction evs generalizing e0 with
  | nil => exact hrest e0 h0
  | cons e l ih =>
    obtain ⟨hk, hw⟩ := h e (List.mem_cons_self _ _)
    rw [List.cons_append, List.chain_cons]
    refine ⟨Or.inl ⟨by rw [hk]; simp, by rw [hw, h0]⟩, ?_⟩
    exact ih (fun x hx => h x (List.mem_cons_of_mem _ hx)) e hw

/-- The first event after an event that is no `pull` is no `switch`. -/
theorem head_not_switch {can_eat : Bool} {e0 : Ev} {l : List Ev}
    (h0 : e0.kind = .init) (h : List.Chain (SwitchStep can_eat) e0 l) :
    ∀ e ∈ l.head?, e.kind ≠ .switch := by
  cases l with
  | nil => simp
  | cons b l =>
    intro e he
    simp only [List.head?_cons, Option.mem_def, Option.some.injEq] at he
    subst he
    rcases (List.chain_cons.1 h).1 with h1 | ⟨-, -, -, old, r, h1⟩
    · exact h1.1
    · rw [h1] at h0
      cases h0

/-- The mode along a run of the loop.  From a task that has left `NONE` the
events form a chain of mode steps after any event carrying the mode of the
task; from a task in `NONE` the run has no event, or starts with the `init`
event and goes on as a chain. -/
theorem loop_modes (E : Env P R) (state : soap_state) (can_eat : Bool) (fuel : Nat)
    (task : priv_soap_task P R) :
    (task.state ≠ .NONE →
      (process_request_loop E state can_eat fuel task).task.state ≠ .NONE ∧
      ∀ e0 : Ev, e0.what = task.vrb_what →
        List.Chain (SwitchStep can_eat) e0
          (process_request_loop E state can_eat fuel task).log) ∧
    (task.state = .NONE →
      ((process_request_loop E state can_eat fuel task).log = [] ∧
        (process_request_loop E state can_eat fuel task).task = task) ∨
      ((process_request_loop E state can_eat fuel task).task.state ≠ .NONE ∧
        ∃ l, (process_request_loop E state can_eat fuel task).log =
            ⟨.init, .INIT, .VRB_CACHED⟩ :: l ∧
          List.Chain (SwitchStep can_eat) ⟨.init, .INIT, .VRB_CACHED⟩ l)) := by
  refine loop_induct E state can_eat
    (fun task run =>
      (task.state ≠ .NONE → run.task.state ≠ .NONE ∧
        ∀ e0 : Ev, e0.what = task.vrb_what → List.Chain (SwitchStep can_eat) e0 run.log) ∧
      (task.state = .NONE →
        (run.log = [] ∧ run.task = task) ∨
        (run.task.state ≠ .NONE ∧ ∃ l, run.log = ⟨.init, .INIT, .VRB_CACHED⟩ :: l ∧
          List.Chain (SwitchStep can_eat) ⟨.init, .INIT, .VRB_CACHED⟩ l)))
    ?_ ?_ ?_ ?_ ?_ ?_ ?_ fuel task
  · intro task _
    exact ⟨fun h => ⟨h, fun _ _ => List.Chain.nil⟩, fun _ => Or.inl ⟨rfl, rfl⟩⟩
  · intro task _
    exact ⟨fun h => ⟨h, fun _ _ => List.Chain.nil⟩, fun _ => Or.inl ⟨rfl, rfl⟩⟩
  · intro task run _ hs ih
    refine ⟨fun h => absurd hs h, fun _ => Or.inr ?_⟩
    obtain ⟨i1, i2⟩ := ih.1 (by simp)
    exact ⟨i1, run.log, rfl, i2 _ rfl⟩
  · intro task task1 evs _ hs hp
    have h0 : task.state ≠ .NONE := by
      rcases hs with h | h | h <;> rw [h] <;> decide
    obtain ⟨-, -, -, f4, -, f6⟩ := pull_pass_frame E task task1 none evs hp
    refine ⟨fun _ => ⟨f6 h0, fun e0 he0 => ?_⟩, fun h => absurd h h0⟩
    have := chain_through_chunks can_eat task.vrb_what evs [] f4
      (fun _ _ => List.Chain.nil) e0 he0
    simpa using this
  · intro task r task1 evs run _ hs hp hw hce ih
    have h0 : task.state ≠ .NONE := by
      rcases hs with h | h | h <;> rw [h] <;> decide
    obtain ⟨f1, -, -, f4, -, f6⟩ := pull_pass_frame E task task1 (some r) evs hp
    obtain ⟨i1, i2⟩ := ih.1 (f6 h0)
    refine ⟨fun _ => ⟨i1, fun e0 he0 => ?_⟩, fun h => absurd h h0⟩
    simp only [Run.after, List.append_assoc]
    refine chain_through_chunks can_eat task.vrb_what evs _ f4 (fun e1 he1 => ?_) e0 he0
    simp only [List.singleton_append, List.chain_cons]
    refine ⟨Or.inl ⟨by simp, by rw [he1, f1]⟩, Or.inr ⟨rfl, rfl, hce, task.state, r, ?_⟩,
      i2 _ rfl⟩
    rw [hw]
  · intro task r task1 evs _ hs hp _ _
    have h0 : task.state ≠ .NONE := by
      rcases hs with h | h | h <;> rw [h] <;> decide
    obtain ⟨f1, -, -, f4, -, -⟩ := pull_pass_frame E task task1 (some r) evs hp
    refine ⟨fun _ => ⟨by simp, fun e0 he0 => ?_⟩, fun h => absurd h h0⟩
    simp only [List.append_assoc]
    refine chain_through_chunks can_eat task.vrb_what evs _ f4 (fun e1 he1 => ?_) e0 he0
    simp only [List.singleton_append, List.chain_cons]
    exact ⟨Or.inl ⟨by simp, by rw [he1, f1]⟩, Or.inl ⟨by simp, rfl⟩, List.Chain.nil⟩
  · intro task r task1 evs run _ hs hp _ _ _ ih
    have h0 : task.state ≠ .NONE := by
      rcases hs with h | h | h <;> rw [h] <;> decide
    obtain ⟨f1, -, -, f4, -, f6⟩ := pull_pass_frame E task task1 (some r) evs hp
    obtain ⟨i1, i2⟩ := ih.1 (f6 h0)
    refine ⟨fun _ => ⟨i1, fun e0 he0 => ?_⟩, fun h => absurd h h0⟩
    simp only [Run.after, List.append_assoc]
    refine chain_through_chunks can_eat task.vrb_what evs _ f4 (fun e1 he1 => ?_) e0 he0
    simp only [List.singleton_append, List.chain_cons]
    exact ⟨Or.inl ⟨by simp, by rw [he1, f1]⟩, i2 _ rfl⟩

/-- The same for a call of `process_request`. -/
theorem process_request_modes (E : Env P R) (fuel : Nat) (task : priv_soap_task P R)
    (state : soap_state) (can_eat : Bool) :
    (task.state ≠ .NONE →
      (process_request E fuel task state can_eat).task.state ≠ .NONE ∧
      ∀ e0 : Ev, e0.what = task.vrb_what →
        List.Chain (SwitchStep can_eat) e0 (process_request E fuel task state can_eat).log) ∧
    (task.state = .NONE →
      ((process_request E fuel task state can_eat).log = [] ∧
        (process_request E fuel task state can_eat).task = task) ∨
      ((process_request E fuel task state can_eat).task.state ≠ .NONE ∧
        ∃ l, (process_request E fuel task state can_eat).log =
            ⟨.init, .INIT, .VRB_CACHED⟩ :: l ∧
          List.Chain (SwitchStep can_eat) ⟨.init, .INIT, .VRB_CACHED⟩ l)) := by
  unfold process_request
  split_ifs
  · exact ⟨fun h => ⟨h, fun _ _ => List.Chain.nil⟩, fun _ => Or.inl ⟨rfl, rfl⟩⟩
  · exact loop_modes E state can_eat fuel task

/-- Inside one call, a `switch` needs `can_eat` and comes right after the
`pull` event of a pass made in mode `VRB_CACHED`; it is never the first
event of the call. -/
theorem process_request_switch (E : Env P R) (fuel : Nat) (task : priv_soap_task P R)
    (state : soap_state) (can_eat : Bool) :
    (∀ e ∈ (process_request E fuel task state can_eat).log.head?, e.kind ≠ .switch) ∧
    List.Chain' (SwitchStep can_eat) (process_request E fuel task state can_eat).log := by
  obtain ⟨m1, m2⟩ := process_request_modes E fuel task state can_eat
  by_cases h0 : task.state = .NONE
  · rcases m2 h0 with ⟨h, -⟩ | ⟨-, l, h, hc⟩
    · rw [h]; simp
    · rw [h]
      refine ⟨by simp, ?_⟩
      exact hc
  · have hc := (m1 h0).2 ⟨.init, task.state, task.vrb_what⟩ rfl
    exact ⟨head_not_switch rfl hc, chain_to_chain' hc⟩

/-- The mode along a life: as along a run. -/
theorem lifetime_modes (E : Env P R) (fuel : Nat) (calls : List (Call R))
    (task : priv_soap_task P R) :
    (task.state ≠ .NONE → ∀ e0 : Ev, e0.what = task.vrb_what →
      List.Chain ModeStep e0 (events (lifetime E fuel calls task))) ∧
    (task.state = .NONE →
      events (lifetime E fuel calls task) = [] ∨
      ∃ l, events (lifetime E fuel calls task) = ⟨.init, .INIT, .VRB_CACHED⟩ :: l ∧
        List.Chain ModeStep ⟨.init, .INIT, .VRB_CACHED⟩ l) := by
  induction calls generalizing task with
  | nil => exact ⟨fun _ _ _ => List.Chain.nil, fun _ => Or.inl rfl⟩
  | cons c cs ih =>
    obtain ⟨m1, m2⟩ :=
      process_request_modes E fuel { task with req := c.host task.req } c.state c.can_eat
    obtain ⟨-, f2, -⟩ :=
      process_request_frame E fuel { task with req := c.host task.req } c.state c.can_eat
    constructor
    · intro h0 e0 he0
      obtain ⟨n1, n2⟩ := m1 h0
      have hc : List.Chain ModeStep e0
          (process_request E fuel { task with req := c.host task.req }
            c.state c.can_eat).log :=
        (n2 e0 he0).imp fun _ _ h => h.mode
      rcases lifetime_cons E fuel c cs task with h | h <;> rw [h, events_cons]
      · simpa [events_nil] using hc
      · refine chain_append_last hc ((ih _).1 n1 _ ?_)
        rw [last_what, he0]
        exact f2
    · intro h0
      rcases m2 h0 with ⟨hl, ht⟩ | ⟨n1, l, hl, hc⟩
      · rcases lifetime_cons E fuel c cs task with h | h <;> rw [h, events_cons, hl]
        · exact Or.inl rfl
        · rw [List.nil_append]
          exact (ih _).2 (by rw [ht]; exact h0)
      · have hc' : List.Chain ModeStep ⟨.init, .INIT, .VRB_CACHED⟩ l :=
          hc.imp fun _ _ h => h.mode
        right
        rcases lifetime_cons E fuel c cs task with h | h <;> rw [h, events_cons, hl]
        · exact ⟨l, by simp [events_nil], hc'⟩
        · refine ⟨_, List.cons_append _ _ _, chain_append_last hc' ((ih _).1 n1 _ ?_)⟩
          rw [last_what]
          have := f2
          rw [hl] at this
          simpa [final_what] using this

/-- After an event in mode `VRB_REMAIN` a chain of mode steps has no
`switch`. -/
theorem switches_after_remain {a : Ev} {l : List Ev} (ha : a.what = .VRB_REMAIN)
    (h : List.Chain ModeStep a l) : switches l = 0 := by
  induction l generalizing a with
  | nil => rfl
  | cons b l ih =>
    obtain ⟨hab, hl⟩ := List.chain_cons.1 h
    rcases hab with ⟨hk, hw⟩ | ⟨-, hc, -⟩
    · have := ih (hw.trans ha) hl
      simp only [switches] at this ⊢
      rw [List.filter_cons_of_neg (by simpa using hk)]
      exact this
    · rw [ha] at hc
      cases hc

/-- A chain of mode steps has at most one `switch`. -/
theorem switches_le_one {a : Ev} {l : List Ev} (h : List.Chain ModeStep a l) :
    switches l ≤ 1 := by
  induction l generalizing a with
  | nil => simp [switches]
  | cons b l ih =>
    obtain ⟨hab, hl⟩ := List.chain_cons.1 h
    rcases hab with ⟨hk, -⟩ | ⟨hk, -, hw⟩
    · have := ih hl
      simp only [switches] at this ⊢
      rw [List.filter_cons_of_neg (by simpa using hk)]
      exact this
    · have := switches_after_remain hw hl
      simp only [switches] at this ⊢
      rw [List.filter_cons_of_pos (by simpa using hk), List.length_cons, this]

/-- Over a life the mode steps form a chain with at most one `switch`. -/
theorem lifetime_switches (E : Env P R) (fuel : Nat) (calls : List (Call R))
    (task : priv_soap_task P R) :
    List.Chain' ModeStep (events (lifetime E fuel calls task)) ∧
    switches (events (lifetime E fuel calls task)) ≤ 1 := by
  obtain ⟨m1, m2⟩ := lifetime_modes E fuel calls task
  by_cases h0 : task.state = .NONE
  · rcases m2 h0 with h | ⟨l, h, hc⟩ <;> rw [h]
    · exact ⟨trivial, by simp [switches]⟩
    · refine ⟨hc, ?_⟩
      have := switches_le_one hc
      simp only [switches] at this ⊢
      rw [List.filter_cons_of_neg (by simp)]
      exact this
  · have hc := m1 h0 ⟨.init, task.state, task.vrb_what⟩ rfl
    exact ⟨chain_to_chain' hc, switches_le_one hc⟩

/-- Every run of a life is a call of `process_request`. -/
theorem lifetime_mem (E : Env P R) (fuel : Nat) (calls : List (Call R))
    (task : priv_soap_task P R) (cr : Call R × Run Int P R)
    (h : cr ∈ lifetime E fuel calls task) :
    ∃ task', cr.2 = process_request E fuel task' cr.1.state cr.1.can_eat := by
  induction calls generalizing task with
  | nil => simp [lifetime] at h
  | cons c cs ih =>
    rcases lifetime_cons E fuel c cs task with hl | hl <;> rw [hl] at h
    · rw [List.mem_singleton] at h
      exact ⟨_, by rw [h]⟩
    · rcases List.mem_cons.1 h with h | h
      · exact ⟨_, by rw [h]⟩
      · exact ih _ h

end Modes

/-! ## The claims -/

/-- C1. Monotonicity of the parse state.  Take a consumer that never un-sets a
fact, a session whose state is backed by its facts (every session in state
`NONE` or `INIT` is, and every call keeps it so), and any sequence of calls of
`process_request`, with any targets, any `can_eat` and any behaviour of the
chunk source.  Then the values taken by `task->state`, one per event (after
every chunk of every pass, after every pull, after every assignment in
`process_request`), in the order `NONE < INIT < HEADER_DONE < ACTION_AVAILABLE <
BODY_DONE < FAILED`, never go down, and once `FAILED` stay `FAILED`.  The
targets need not even be non-decreasing. -/
theorem C1_state_never_decreases {P R : Type} (E : Env P R) (hk : FactsKept E)
    (fuel : Nat) (calls : List (Call R)) (task : priv_soap_task P R) (hb : Backed task) :
    List.Chain (fun a b : soap_state => a ≤ b ∧ (a = .FAILED → b = .FAILED)) task.state
      ((events (lifetime E fuel calls task)).map Ev.state) :=
  lifetime_rise E hk fuel calls task hb

/-- C1 on a life of two calls: the header arrives in the cached pass, the
live pass brings the action and then malformed input. -/
theorem C1_witness :
    FactsKept script_env ∧
    Backed (script_task .NONE .VRB_CACHED
      [([⟨0, [1]⟩], 0), ([⟨0, [2, 3]⟩, ⟨0, [0]⟩], 0)]) ∧
    List.Chain (fun a b : soap_state => a ≤ b ∧ (a = .FAILED → b = .FAILED)) .NONE
      ((events (lifetime script_env 8
        [⟨.HEADER_DONE, true, id⟩, ⟨.BODY_DONE, true, id⟩]
        (script_task .NONE .VRB_CACHED
          [([⟨0, [1]⟩], 0), ([⟨0, [2, 3]⟩, ⟨0, [0]⟩], 0)]))).map Ev.state) :=
  ⟨script_env_kept, by simp [Backed, script_task],
    C1_state_never_decreases script_env script_env_kept 8
      [⟨.HEADER_DONE, true, id⟩, ⟨.BODY_DONE, true, id⟩]
      (script_task .NONE .VRB_CACHED [([⟨0, [1]⟩], 0), ([⟨0, [2, 3]⟩, ⟨0, [0]⟩], 0)])
      (by simp [Backed, script_task])⟩

/-- C2. A failed session is never parsed again: on a task in state `FAILED`,
for every target and every `can_eat`, `process_request` returns a non-zero
value, performs no event at all (so no pull of the chunk source) and leaves
the task as it is; `vmod_is_valid` is false and `vmod_action`,
`vmod_action_namespace`, `vmod_xpath_header`, `vmod_xpath_body` return the
empty string.  This holds with any bound on the loop, `0` included. -/
theorem C2_failed_session_is_final {P R : Type} (E : Env P R) (fuel : Nat)
    (task : priv_soap_task P R) (state : soap_state) (can_eat : Bool)
    (soap_vcl : List (String × String)) (xpath : String)
    (hf : task.state = .FAILED) :
    (∃ r : Int, r ≠ 0 ∧ process_request E fuel task state can_eat = ⟨.ret r, task, []⟩) ∧
    vmod_is_valid E fuel task = ⟨.ret false, task, []⟩ ∧
    vmod_action E fuel task = ⟨.ret (some ""), task, []⟩ ∧
    vmod_action_namespace E fuel task = ⟨.ret (some ""), task, []⟩ ∧
    vmod_xpath_header E fuel soap_vcl task xpath = ⟨.ret (some ""), task, []⟩ ∧
    vmod_xpath_body E fuel soap_vcl task xpath = ⟨.ret (some ""), task, []⟩ := by
  have hne : (if E.body_none task.req = true then (-1 : Int) else 1) ≠ 0 := by
    split_ifs <;> decide
  refine ⟨⟨_, hne, process_request_failed E fuel task state can_eat hf⟩, ?_, ?_, ?_, ?_, ?_⟩
  · simp only [vmod_is_valid, priv_soap_get, process_request_failed E fuel task _ _ hf,
      run_value_ret, hne, decide_False]
  · simp only [vmod_action, priv_soap_get, process_request_failed E fuel task _ _ hf,
      run_value_ret, hne, if_false]
  · simp only [vmod_action_namespace, priv_soap_get,
      process_request_failed E fuel task _ _ hf, run_value_ret, hne, if_false]
  · simp only [vmod_xpath_header, priv_soap_get, process_request_failed E fuel task _ _ hf,
      run_value_ret, hne, if_false]
  · simp only [vmod_xpath_body, priv_soap_get, process_request_failed E fuel task _ _ hf,
      run_value_ret, hne, if_false]

/-- C2 on a failed session that is asked for the body. -/
theorem C2_witness :
    (script_task .FAILED .VRB_REMAIN [([⟨0, [4]⟩], 0)]).state = .FAILED ∧
    vmod_xpath_body script_env 5 [("a", "urn:a")]
        (script_task .FAILED .VRB_REMAIN [([⟨0, [4]⟩], 0)]) "//a:x" =
      ⟨.ret (some ""), script_task .FAILED .VRB_REMAIN [([⟨0, [4]⟩], 0)], []⟩ :=
  ⟨rfl, (C2_failed_session_is_final script_env 5
    (script_task .FAILED .VRB_REMAIN [([⟨0, [4]⟩], 0)]) .BODY_DONE true
    [("a", "urn:a")] "//a:x" rfl).2.2.2.2.2⟩

/-- C3. Success postcondition of advance.  With a request body present,
whenever `process_request` returns, it returns `0` if and only if the state
it leaves is not `FAILED` and is at least the target, and a non-zero result
leaves the state `FAILED`.  And it does return or abort on the assertion of
`read_iter_f`: for a target among `HEADER_DONE`, `ACTION_AVAILABLE`,
`BODY_DONE`, a consumer that keeps its facts and a backed task, eleven loop
bodies are always enough. -/
theorem C3_advance_postcondition {P R : Type} (E : Env P R) (task : priv_soap_task P R)
    (state : soap_state) (can_eat : Bool) (hb : E.body_none task.req = false) :
    (∀ (fuel : Nat) (r : Int), (process_request E fuel task state can_eat).res = .ret r →
      (r = 0 ↔ (process_request E fuel task state can_eat).task.state ≠ .FAILED ∧
        state ≤ (process_request E fuel task state can_eat).task.state) ∧
      (r ≠ 0 → (process_request E fuel task state can_eat).task.state = .FAILED)) ∧
    (is_target state → FactsKept E → Backed task → ∀ fuel, 11 ≤ fuel →
      (process_request E fuel task state can_eat).res ≠ .out_of_fuel) := by
  constructor
  · intro fuel r h
    rw [process_request_body E fuel task state can_eat hb] at h ⊢
    exact loop_post E state can_eat fuel task r h
  · intro ht hk hbk fuel hfuel
    rw [process_request_body E fuel task state can_eat hb]
    exact loop_returns E hk state can_eat ht fuel task hbk
      (Nat.le_trans (loop_measure_le can_eat task) hfuel)

/-- C3 on a fresh session whose cached pass holds the whole envelope. -/
theorem C3_witness :
    script_env.body_none
      (script_task .NONE .VRB_CACHED [([⟨0, [1, 2, 3, 4]⟩], 0)]).req = false ∧
    ((0 : Int) = 0 ↔
      (process_request script_env 11
        (script_task .NONE .VRB_CACHED [([⟨0, [1, 2, 3, 4]⟩], 0)])
        .BODY_DONE false).task.state ≠ .FAILED ∧
      soap_state.BODY_DONE ≤ (process_request script_env 11
        (script_task .NONE .VRB_CACHED [([⟨0, [1, 2, 3, 4]⟩], 0)])
        .BODY_DONE false).task.state) :=
  ⟨rfl, ((C3_advance_postcondition script_env
    (script_task .NONE .VRB_CACHED [([⟨0, [1, 2, 3, 4]⟩], 0)])
    .BODY_DONE false rfl).1 11 0 (by decide)).1⟩

/-- C4. Event priority per fed chunk: on a task in state `INIT`, `HEADER_DONE`
or `ACTION_AVAILABLE`, `read_iter_f` returns `0`, keeps what the consumer left
in `req_xml`, and the state after it is `FAILED` if the consumer returned a
negative value; otherwise `BODY_DONE` if the body is present; otherwise
`ACTION_AVAILABLE` if the action name and the action namespace are both
present (one of the two missing is not enough); otherwise `HEADER_DONE` if
the header is present; otherwise unchanged.  And whatever the task and the
chunk, a call of `read_iter_f` that returns, returns `0`. -/
theorem C4_event_priority {P R : Type} (E : Env P R) (task : priv_soap_task P R) (c : Chunk)
    (hs : task.state = .INIT ∨ task.state = .HEADER_DONE ∨ task.state = .ACTION_AVAILABLE) :
    ∃ task1, read_iter_f E task c = some (0, task1) ∧
      task1.req_xml = (E.soap_iter_f task.req_xml c).2 ∧
      ((E.soap_iter_f task.req_xml c).1 < 0 → task1.state = .FAILED) ∧
      (0 ≤ (E.soap_iter_f task.req_xml c).1 → task1.req_xml.body.isSome = true →
        task1.state = .BODY_DONE) ∧
      (0 ≤ (E.soap_iter_f task.req_xml c).1 → task1.req_xml.body = none →
        task1.req_xml.action_name.isSome = true →
        task1.req_xml.action_namespace.isSome = true →
        task1.state = .ACTION_AVAILABLE) ∧
      (0 ≤ (E.soap_iter_f task.req_xml c).1 → task1.req_xml.body = none →
        (task1.req_xml.action_name = none ∨ task1.req_xml.action_namespace = none) →
        task1.req_xml.header.isSome = true → task1.state = .HEADER_DONE) ∧
      (0 ≤ (E.soap_iter_f task.req_xml c).1 → task1.req_xml.body = none →
        (task1.req_xml.action_name = none ∨ task1.req_xml.action_namespace = none) →
        task1.req_xml.header = none → task1.state = task.state) ∧
      ∀ (task0 task2 : priv_soap_task P R) (c0 : Chunk) (i : Int),
        read_iter_f E task0 c0 = some (i, task2) → i = 0 := by
  have hz : ∀ (task0 task2 : priv_soap_task P R) (c0 : Chunk) (i : Int),
      read_iter_f E task0 c0 = some (i, task2) → i = 0 :=
    fun task0 task2 c0 i h => (read_iter_f_frame E task0 task2 c0 i h).1
  have h1 : ¬ task.state = .FAILED := by
    rcases hs with h | h | h <;> rw [h] <;> decide
  have h2 : ¬ ¬ (task.state = .INIT ∨ task.state = .HEADER_DONE ∨
      task.state = .ACTION_AVAILABLE) := not_not.2 hs
  dsimp only [read_iter_f]
  rw [if_neg h1, if_neg h2]
  split_ifs with h3 h4 h5 h6
  · exact ⟨_, rfl, rfl, fun _ => rfl, fun h => absurd h3 (not_lt.2 h),
      fun h => absurd h3 (not_lt.2 h), fun h => absurd h3 (not_lt.2 h),
      fun h => absurd h3 (not_lt.2 h), hz⟩
  · refine ⟨_, rfl, rfl, fun h => absurd h h3, fun _ _ => rfl, ?_, ?_, ?_, hz⟩ <;>
      · intro _ hb
        dsimp only at hb
        rw [hb] at h4
        cases h4
  · refine ⟨_, rfl, rfl, fun h => absurd h h3, fun _ h => absurd h h4,
      fun _ _ _ _ => rfl, ?_, ?_, hz⟩ <;>
      · intro _ _ hn
        dsimp only at hn
        rcases hn with hn | hn <;> rw [hn] at h5
        · exact absurd h5.2 (by simp)
        · exact absurd h5.1 (by simp)
  · refine ⟨_, rfl, rfl, fun h => absurd h h3, fun _ h => absurd h h4,
      fun _ _ h₁ h₂ => absurd ⟨h₂, h₁⟩ h5, fun _ _ _ _ => rfl, ?_, hz⟩
    intro _ _ _ hn
    dsimp only at hn
    rw [hn] at h6
    cases h6
  · exact ⟨_, rfl, rfl, fun h => absurd h h3, fun _ h => absurd h h4,
      fun _ _ h₁ h₂ => absurd ⟨h₂, h₁⟩ h5, fun _ _ _ h => absurd h h6,
      fun _ _ _ _ => rfl, hz⟩

/-- C4 on a chunk that completes header, action and body at once. -/
theorem C4_witness :
    ((script_task .INIT .VRB_CACHED []).state = .INIT ∨
      (script_task .INIT .VRB_CACHED []).state = .HEADER_DONE ∨
      (script_task .INIT .VRB_CACHED []).state = .ACTION_AVAILABLE) ∧
    ∃ task1, read_iter_f script_env (script_task .INIT .VRB_CACHED []) ⟨0, [1, 2, 3, 4]⟩ =
        some (0, task1) ∧ task1.state = .BODY_DONE := by
  refine ⟨Or.inl rfl, ?_⟩
  obtain ⟨task1, h1, h2, -, h4, -⟩ :=
    C4_event_priority script_env (script_task .INIT .VRB_CACHED []) ⟨0, [1, 2, 3, 4]⟩
      (Or.inl rfl)
  exact ⟨task1, h1, h4 (by decide) (by rw [h2]; rfl)⟩

/-- C5 fails on the code: a pass whose first chunk closes the body and which
then delivers one more chunk finds `read_iter_f` in state `BODY_DONE`, where
its assertion does not hold; the call does not return. -/
theorem C5_assertion_fails_after_body :
    (process_request script_env 3
        (script_task .NONE .VRB_CACHED [([⟨0, [1, 2, 3, 4]⟩, ⟨0, [10]⟩], 0)])
        .BODY_DONE false).res = .assert_failed ∧
    (process_request script_env 3
        (script_task .NONE .VRB_CACHED [([⟨0, [1, 2, 3, 4]⟩, ⟨0, [10]⟩], 0)])
        .BODY_DONE false).log =
      [⟨.init, .INIT, .VRB_CACHED⟩, ⟨.chunk, .BODY_DONE, .VRB_CACHED⟩] := by
  decide

/-- C6, as the code has it.  On a task in state `INIT`, `HEADER_DONE` or
`ACTION_AVAILABLE` below the target, when the pull returns a non-zero value
and the mode switch does not follow it (`can_eat` is false, or the mode is
already `VRB_REMAIN`), `process_request` makes no further pull, sets the state
to `FAILED` and returns that value. -/
theorem C6_read_error_terminal_without_switch {P R : Type} (E : Env P R) (fuel : Nat)
    (task task1 : priv_soap_task P R) (state : soap_state) (can_eat : Bool)
    (r : Int) (evs : List Ev)
    (hs : task.state = .INIT ∨ task.state = .HEADER_DONE ∨ task.state = .ACTION_AVAILABLE)
    (hlt : task.state < state) (hb : E.body_none task.req = false)
    (hp : pull_pass E task = (some r, task1, evs)) (hr : r ≠ 0)
    (hno : can_eat = false ∨ task.vrb_what = .VRB_REMAIN) :
    process_request E (fuel + 1) task state can_eat =
      ⟨.ret r, { task1 with state := .FAILED },
        evs ++ [⟨.pull task.state r, task1.state, task1.vrb_what⟩] ++
          [⟨.fail, .FAILED, task1.vrb_what⟩]⟩ ∧
    pulls (process_request E (fuel + 1) task state can_eat).log = 1 := by
  have hc : checked r task.state task1.state = r := by
    unfold checked
    rw [if_neg (fun h => hr h.1)]
  have hrun := loop_pull_fail E state can_eat fuel task task1 r evs hlt hs hp hno
    (by rw [hc]; exact hr)
  rw [hc] at hrun
  rw [process_request_body E (fuel + 1) task state can_eat hb, hrun]
  refine ⟨rfl, ?_⟩
  obtain ⟨-, -, -, f4, -, -⟩ := pull_pass_frame E task task1 (some r) evs hp
  rw [pulls_append, pulls_append, pulls_chunks evs _ f4]
  rfl

/-- C6 as stated fails: in mode `VRB_CACHED` with `can_eat` true, a pull
that returns the error `-1` is followed by the mode switch and a second
pull, and the call returns `0` with the state `BODY_DONE`. -/
theorem C6_counterexample_error_then_switch :
    (pull_pass script_env
        (script_task .INIT .VRB_CACHED [([], -1), ([⟨0, [2, 3, 4]⟩], 0)])).1 = some (-1) ∧
    (process_request script_env 3
        (script_task .INIT .VRB_CACHED [([], -1), ([⟨0, [2, 3, 4]⟩], 0)])
        .BODY_DONE true).res = .ret 0 ∧
    (process_request script_env 3
        (script_task .INIT .VRB_CACHED [([], -1), ([⟨0, [2, 3, 4]⟩], 0)])
        .BODY_DONE true).task.state = .BODY_DONE ∧
    pulls (process_request script_env 3
        (script_task .INIT .VRB_CACHED [([], -1), ([⟨0, [2, 3, 4]⟩], 0)])
        .BODY_DONE true).log = 2 := by
  decide

/-- C6 on a live pull that returns `-1`. -/
theorem C6_witness :
    ((script_task .INIT .VRB_REMAIN [([], -1)]).state = .INIT ∨
      (script_task .INIT .VRB_REMAIN [([], -1)]).state = .HEADER_DONE ∨
      (script_task .INIT .VRB_REMAIN [([], -1)]).state = .ACTION_AVAILABLE) ∧
    (script_task .INIT .VRB_REMAIN [([], -1)]).state < .BODY_DONE ∧
    script_env.body_none (script_task .INIT .VRB_REMAIN [([], -1)]).req = false ∧
    pull_pass script_env (script_task .INIT .VRB_REMAIN [([], -1)]) =
      (some (-1), script_task .INIT .VRB_REMAIN [], []) ∧
    (-1 : Int) ≠ 0 ∧
    (true = false ∨ (script_task .INIT .VRB_REMAIN [([], -1)]).vrb_what = .VRB_REMAIN) ∧
    pulls (process_request script_env 1 (script_task .INIT .VRB_REMAIN [([], -1)])
      .BODY_DONE true).log = 1 :=
  ⟨Or.inl rfl, by decide, rfl, rfl, by decide, Or.inr rfl,
    (C6_read_error_terminal_without_switch script_env 0
      (script_task .INIT .VRB_REMAIN [([], -1)]) (script_task .INIT .VRB_REMAIN [])
      .BODY_DONE true (-1) [] (Or.inl rfl) (by decide) rfl rfl (by decide) (Or.inr rfl)).2⟩

/-- C7, as the code has it.  Over the life of a session, from any task and
for any calls: from one event to the next the mode is kept, except by a
`switch` event, which takes it from `VRB_CACHED` to `VRB_REMAIN` (so it never
goes back to `VRB_CACHED`), and for a task that has left `NONE` this holds
from the mode it has on; there is at most one `switch`; and inside each call
a `switch` needs `can_eat` true and comes right after the `pull` event of the
pass just made in mode `VRB_CACHED`, whether or not that pass made progress
or returned an error. -/
theorem C7_mode_switches_once {P R : Type} (E : Env P R) (fuel : Nat)
    (calls : List (Call R)) (task : priv_soap_task P R) :
    List.Chain' ModeStep (events (lifetime E fuel calls task)) ∧
    (task.state ≠ .NONE →
      List.Chain ModeStep ⟨.init, task.state, task.vrb_what⟩
        (events (lifetime E fuel calls task))) ∧
    switches (events (lifetime E fuel calls task)) ≤ 1 ∧
    ∀ cr ∈ lifetime E fuel calls task,
      (∀ e ∈ cr.2.log.head?, e.kind ≠ .switch) ∧
      List.Chain' (SwitchStep cr.1.can_eat) cr.2.log := by
  obtain ⟨h1, h2⟩ := lifetime_switches E fuel calls task
  refine ⟨h1, fun h0 => (lifetime_modes E fuel calls task).1 h0 _ rfl, h2, fun cr hcr => ?_⟩
  obtain ⟨task', h⟩ := lifetime_mem E fuel calls task cr hcr
  rw [h]
  exact process_request_switch E fuel task' cr.1.state cr.1.can_eat

/-- C7 as stated fails: a cached pass that raises the state from `INIT` to
`HEADER_DONE` is followed by the switch to `VRB_REMAIN` all the same. -/
theorem C7_counterexample_switch_after_progress :
    (process_request script_env 3
        (script_task .INIT .VRB_CACHED [([⟨0, [1]⟩], 0), ([⟨0, [2, 3, 4]⟩], 0)])
        .BODY_DONE true).log =
      [⟨.chunk, .HEADER_DONE, .VRB_CACHED⟩, ⟨.pull .INIT 0, .HEADER_DONE, .VRB_CACHED⟩,
        ⟨.switch, .HEADER_DONE, .VRB_REMAIN⟩, ⟨.chunk, .BODY_DONE, .VRB_REMAIN⟩,
        ⟨.pull .HEADER_DONE 0, .BODY_DONE, .VRB_REMAIN⟩] ∧
    ¬ SwitchOnlyWithoutProgress
      (process_request script_env 3
        (script_task .INIT .VRB_CACHED [([⟨0, [1]⟩], 0), ([⟨0, [2, 3, 4]⟩], 0)])
        .BODY_DONE true).log := by
  have hlog : (process_request script_env 3
        (script_task .INIT .VRB_CACHED [([⟨0, [1]⟩], 0), ([⟨0, [2, 3, 4]⟩], 0)])
        .BODY_DONE true).log =
      [⟨.chunk, .HEADER_DONE, .VRB_CACHED⟩, ⟨.pull .INIT 0, .HEADER_DONE, .VRB_CACHED⟩,
        ⟨.switch, .HEADER_DONE, .VRB_REMAIN⟩, ⟨.chunk, .BODY_DONE, .VRB_REMAIN⟩,
        ⟨.pull .HEADER_DONE 0, .BODY_DONE, .VRB_REMAIN⟩] := by decide
  refine ⟨hlog, ?_⟩
  rw [hlog]
  intro h
  have h2 := (List.chain'_cons.1 (List.chain'_cons.1 h).2).1 rfl
  obtain ⟨r, hr⟩ := h2
  cases hr

/-- C8, as the code has it.  On a task in state `INIT`, `HEADER_DONE` or
`ACTION_AVAILABLE` below the target, with a body present:
* a pass that returns `0` and leaves the state as it was, when the remainder
  fallback is not available (`can_eat` false, or the mode already
  `VRB_REMAIN`), makes `process_request` set the state to `FAILED` and return
  `-1`, after that one pull;
* with `can_eat` true and the mode `VRB_CACHED`, the same pass is followed by
  the switch to `VRB_REMAIN` and one more pull.  If that live pass returns `0`
  and leaves the state at or above the target (and not `FAILED`), the call
  returns `0` after exactly two pulls; if it returns `0` and again leaves the
  state as it was, the call fails with `-1` after exactly two pulls; if it
  returns a non-zero value, the call sets the state to `FAILED` and returns
  that value after exactly two pulls, wherever the pass has taken the
  state. -/
theorem C8_no_progress {P R : Type} (E : Env P R) (fuel : Nat)
    (task task1 : priv_soap_task P R) (state : soap_state) (evs : List Ev)
    (hs : task.state = .INIT ∨ task.state = .HEADER_DONE ∨ task.state = .ACTION_AVAILABLE)
    (hlt : task.state < state) (hb : E.body_none task.req = false)
    (hp : pull_pass E task = (some 0, task1, evs)) (hsame : task1.state = task.state) :
    (∀ can_eat, can_eat = false ∨ task.vrb_what = .VRB_REMAIN →
      process_request E (fuel + 1) task state can_eat =
        ⟨.ret (-1), { task1 with state := .FAILED },
          evs ++ [⟨.pull task.state 0, task1.state, task1.vrb_what⟩] ++
            [⟨.fail, .FAILED, task1.vrb_what⟩]⟩ ∧
      pulls (process_request E (fuel + 1) task state can_eat).log = 1) ∧
    (task.vrb_what = .VRB_CACHED →
      ∀ (r2 : Int) (task2 : priv_soap_task P R) (evs2 : List Ev),
        pull_pass E { task1 with vrb_what := .VRB_REMAIN } = (some r2, task2, evs2) →
        (r2 = 0 → state ≤ task2.state → task2.state ≠ .FAILED →
          (process_request E (fuel + 2) task state true).res = .ret 0 ∧
          (process_request E (fuel + 2) task state true).task = task2 ∧
          task2.vrb_what = .VRB_REMAIN ∧
          pulls (process_request E (fuel + 2) task state true).log = 2) ∧
        (r2 = 0 → task2.state = task1.state →
          (process_request E (fuel + 2) task state true).res = .ret (-1) ∧
          (process_request E (fuel + 2) task state true).task.state = .FAILED ∧
          pulls (process_request E (fuel + 2) task state true).log = 2) ∧
        (r2 ≠ 0 →
          (process_request E (fuel + 2) task state true).res = .ret r2 ∧
          (process_request E (fuel + 2) task state true).task.state = .FAILED ∧
          pulls (process_request E (fuel + 2) task state true).log = 2)) := by
  obtain ⟨-, -, -, f4, -, -⟩ := pull_pass_frame E task task1 (some 0) evs hp
  constructor
  · intro can_eat hno
    have hc : checked 0 task.state task1.state = -1 := by
      unfold checked
      rw [if_pos ⟨rfl, hsame.symm⟩]
    have hrun := loop_pull_fail E state can_eat fuel task task1 0 evs hlt hs hp hno
      (by rw [hc]; decide)
    rw [hc] at hrun
    rw [process_request_body E (fuel + 1) task state can_eat hb, hrun]
    refine ⟨rfl, ?_⟩
    rw [pulls_append, pulls_append, pulls_chunks evs _ f4]
    rfl
  · intro hw r2 task2 evs2 hp2
    obtain ⟨g1, -, -, g4, -, -⟩ :=
      pull_pass_frame E { task1 with vrb_what := .VRB_REMAIN } task2 (some r2) evs2 hp2
    have hs1 : task1.state = .INIT ∨ task1.state = .HEADER_DONE ∨
        task1.state = .ACTION_AVAILABLE := by rw [hsame]; exact hs
    have hlt1 : task1.state < state := by rw [hsame]; exact hlt
    have hsw := loop_pull_switch E state (fuel + 1) task task1 0 evs hlt hs hp hw
    rw [process_request_body E (fuel + 2) task state true hb, hsw]
    have hfailed : checked r2 task1.state task2.state ≠ 0 →
        process_request_loop E state true (fuel + 1) { task1 with vrb_what := .VRB_REMAIN } =
          ⟨.ret (checked r2 task1.state task2.state), { task2 with state := .FAILED },
            evs2 ++ [⟨.pull task1.state r2, task2.state, task2.vrb_what⟩] ++
              [⟨.fail, .FAILED, task2.vrb_what⟩]⟩ := fun hc =>
      loop_pull_fail E state true fuel
        { task1 with vrb_what := .VRB_REMAIN } task2 r2 evs2 hlt1 hs1 hp2 (Or.inr rfl) hc
    refine ⟨?_, ?_, ?_⟩
    · intro hr hle hnf
      subst hr
      have hne : task1.state ≠ task2.state := by
        intro heq
        rw [heq] at hlt1
        exact absurd hle (Nat.not_le.2 hlt1)
      have hnext := loop_pull_next E state true fuel
        { task1 with vrb_what := .VRB_REMAIN } task2 evs2 hlt1 hs1 hp2 (Or.inr rfl) hne
      rw [hnext, loop_done E state true fuel task2 (Nat.not_lt.2 hle)]
      refine ⟨by simp [Run.after, hnf], rfl, g1, ?_⟩
      simp only [Run.after, pulls_append, pulls_chunks evs _ f4, pulls_chunks evs2 _ g4,
        List.append_nil]
      rfl
    · intro hr heq
      subst hr
      have hc : checked 0 task1.state task2.state = -1 := by
        unfold checked
        rw [if_pos ⟨rfl, heq.symm⟩]
      rw [hfailed (by rw [hc]; decide)]
      refine ⟨by simp [Run.after, hc], rfl, ?_⟩
      simp only [Run.after, pulls_append, pulls_chunks evs _ f4, pulls_chunks evs2 _ g4]
      rfl
    · intro hr
      have hc : checked r2 task1.state task2.state = r2 := by
        unfold checked
        rw [if_neg (fun h => hr h.1)]
      rw [hfailed (by rw [hc]; exact hr)]
      refine ⟨by simp [Run.after, hc], rfl, ?_⟩
      simp only [Run.after, pulls_append, pulls_chunks evs _ f4, pulls_chunks evs2 _ g4]
      rfl

/-- C8 as stated fails: after an empty cached pass and the switch, a live
pass that raises the state from `INIT` to the target `HEADER_DONE` while the
pull returns `1` makes the call set the state to `FAILED` and return `1`,
not `0`. -/
theorem C8_counterexample_live_pass_error :
    pull_pass script_env
        (script_task .INIT .VRB_CACHED [([], 0), ([⟨0, [1]⟩], 1)]) =
      (some 0, script_task .INIT .VRB_CACHED [([⟨0, [1]⟩], 1)], []) ∧
    (pull_pass script_env
        (script_task .INIT .VRB_REMAIN [([⟨0, [1]⟩], 1)])).1 = some 1 ∧
    (pull_pass script_env
        (script_task .INIT .VRB_REMAIN [([⟨0, [1]⟩], 1)])).2.1.state = .HEADER_DONE ∧
    (process_request script_env 3
        (script_task .INIT .VRB_CACHED [([], 0), ([⟨0, [1]⟩], 1)])
        .HEADER_DONE true).res = .ret 1 ∧
    (process_request script_env 3
        (script_task .INIT .VRB_CACHED [([], 0), ([⟨0, [1]⟩], 1)])
        .HEADER_DONE true).task.state = .FAILED ∧
    pulls (process_request script_env 3
        (script_task .INIT .VRB_CACHED [([], 0), ([⟨0, [1]⟩], 1)])
        .HEADER_DONE true).log = 2 :=
  ⟨rfl, by decide, by decide, by decide, by decide, by decide⟩

/-- C8 on an empty cached pass followed by a live pass that brings the
body. -/
theorem C8_witness :
    ((script_task .INIT .VRB_CACHED [([], 0), ([⟨0, [2, 3, 4]⟩], 0)]).state = .INIT ∨
      (script_task .INIT .VRB_CACHED [([], 0), ([⟨0, [2, 3, 4]⟩], 0)]).state =
        .HEADER_DONE ∨
      (script_task .INIT .VRB_CACHED [([], 0), ([⟨0, [2, 3, 4]⟩], 0)]).state =
        .ACTION_AVAILABLE) ∧
    (script_task .INIT .VRB_CACHED [([], 0), ([⟨0, [2, 3, 4]⟩], 0)]).state < .BODY_DONE ∧
    script_env.body_none
      (script_task .INIT .VRB_CACHED [([], 0), ([⟨0, [2, 3, 4]⟩], 0)]).req = false ∧
    pull_pass script_env (script_task .INIT .VRB_CACHED [([], 0), ([⟨0, [2, 3, 4]⟩], 0)]) =
      (some 0, script_task .INIT .VRB_CACHED [([⟨0, [2, 3, 4]⟩], 0)], []) ∧
    (script_task .INIT .VRB_CACHED [([⟨0, [2, 3, 4]⟩], 0)]).state =
      (script_task .INIT .VRB_CACHED [([], 0), ([⟨0, [2, 3, 4]⟩], 0)]).state ∧
    (process_request script_env 2
      (script_task .INIT .VRB_CACHED [([], 0), ([⟨0, [2, 3, 4]⟩], 0)])
      .BODY_DONE true).res = .ret 0 ∧
    pulls (process_request script_env 2
      (script_task .INIT .VRB_CACHED [([], 0), ([⟨0, [2, 3, 4]⟩], 0)])
      .BODY_DONE true).log = 2 :=
  have h := (C8_no_progress script_env 0
    (script_task .INIT .VRB_CACHED [([], 0), ([⟨0, [2, 3, 4]⟩], 0)])
    (script_task .INIT .VRB_CACHED [([⟨0, [2, 3, 4]⟩], 0)])
    .BODY_DONE [] (Or.inl rfl) (by decide) rfl rfl rfl).2 rfl 0
    ⟨.BODY_DONE, .VRB_REMAIN, ⟨(), none, some "DoThing", some "urn:a", some "<Body/>"⟩, []⟩
    [⟨.chunk, .BODY_DONE, .VRB_REMAIN⟩] rfl
  ⟨Or.inl rfl, by decide, rfl, rfl, rfl, (h.1 rfl (by decide) (by decide)).1,
    (h.1 rfl (by decide) (by decide)).2.2.2⟩

/-- C9, as the code has it.  Once `process_request(task, S, can_eat)` has
returned `0`, and after any calls in between that all returned `0` (whatever
their targets, and whatever the host did to the transport), a call with any
target `S' <= S`, any `can_eat` and any bound on the loop, with a body still
reported, returns `0`, performs no event (no pull of the chunk source) and
leaves the state, the mode and the facts as they were. -/
theorem C9_advance_idempotent {P R : Type} (E : Env P R) (fuel : Nat)
    (task : priv_soap_task P R) (S : soap_state) (can_eat : Bool)
    (h : (process_request E fuel task S can_eat).res = .ret 0)
    (fuel₁ : Nat) (between : List (Call R))
    (hall : all_return_zero E fuel₁ between (process_request E fuel task S can_eat).task)
    (fuel' : Nat) (S' : soap_state) (can_eat' : Bool) (req' : R)
    (hS : S' ≤ S) (hb : E.body_none req' = false) :
    process_request E fuel'
        ((life_end E fuel₁ between
          (process_request E fuel task S can_eat).task).with_req req') S' can_eat' =
      ⟨.ret 0,
        (life_end E fuel₁ between (process_request E fuel task S can_eat).task).with_req req',
        []⟩ := by
  obtain ⟨h1, h2⟩ := process_request_zero E fuel task S can_eat h
  obtain ⟨k1, k2⟩ := life_end_reached E fuel₁ S between _ h1 h2 hall
  have hst : ((life_end E fuel₁ between
      (process_request E fuel task S can_eat).task).with_req req').state =
      (life_end E fuel₁ between (process_request E fuel task S can_eat).task).state := rfl
  rw [process_request_body E fuel' _ S' can_eat' hb,
    loop_done E S' can_eat' fuel' _
      (by rw [hst]; exact Nat.not_lt.2 (soap_state.le_trans hS k1)),
    hst, if_neg k2]

/-- C9 as stated fails: in the life `HEADER_DONE`, `BODY_DONE`, `HEADER_DONE`
whose second call meets malformed input, the first call returns `0`, the
second fails, and the third, with the same target as the first and the body
still present, returns `1`. -/
theorem C9_counterexample_after_failed_call :
    (lifetime script_env 5
        [⟨.HEADER_DONE, true, id⟩, ⟨.BODY_DONE, true, id⟩, ⟨.HEADER_DONE, true, id⟩]
        (script_task .NONE .VRB_CACHED [([⟨0, [1]⟩], 0), ([⟨0, [0]⟩], 0)])).map
      (fun cr => (cr.2.res, cr.2.task.state)) =
      [(.ret 0, .HEADER_DONE), (.ret 1, .FAILED), (.ret 1, .FAILED)] := by
  decide

/-- C9 on a session that has reached `HEADER_DONE`, is then taken to
`ACTION_AVAILABLE`, and is asked for the header again. -/
theorem C9_witness :
    (process_request script_env 11
      (script_task .NONE .VRB_CACHED [([⟨0, [1]⟩], 0), ([⟨0, [2, 3]⟩], 0)])
      .HEADER_DONE true).res = .ret 0 ∧
    all_return_zero script_env 11 [⟨.ACTION_AVAILABLE, true, id⟩]
      (process_request script_env 11
        (script_task .NONE .VRB_CACHED [([⟨0, [1]⟩], 0), ([⟨0, [2, 3]⟩], 0)])
        .HEADER_DONE true).task ∧
    soap_state.HEADER_DONE ≤ .HEADER_DONE ∧
    script_env.body_none [] = false ∧
    (process_request script_env 0
        ((life_end script_env 11 [⟨.ACTION_AVAILABLE, true, id⟩]
          (process_request script_env 11
            (script_task .NONE .VRB_CACHED [([⟨0, [1]⟩], 0), ([⟨0, [2, 3]⟩], 0)])
            .HEADER_DONE true).task).with_req [])
        .HEADER_DONE false).res = .ret 0 :=
  have hall : all_return_zero script_env 11 [⟨.ACTION_AVAILABLE, true, id⟩]
      (process_request script_env 11
        (script_task .NONE .VRB_CACHED [([⟨0, [1]⟩], 0), ([⟨0, [2, 3]⟩], 0)])
        .HEADER_DONE true).task := ⟨by decide, trivial⟩
  ⟨by decide, hall, by decide, rfl,
    congrArg Run.res
      (C9_advance_idempotent script_env 11
        (script_task .NONE .VRB_CACHED [([⟨0, [1]⟩], 0), ([⟨0, [2, 3]⟩], 0)])
        .HEADER_DONE true (by decide) 11 [⟨.ACTION_AVAILABLE, true, id⟩] hall
        0 .HEADER_DONE false [] (by decide) rfl)⟩

/-- C10. Absent body: when the transport reports no request body, for every
task, target and `can_eat`, `process_request` returns `-1`, performs no event
(no pull, no initialisation) and leaves the task as it is; `vmod_is_valid` is
false and `vmod_action`, `vmod_action_namespace` return the empty string. -/
theorem C10_absent_body {P R : Type} (E : Env P R) (fuel : Nat)
    (task : priv_soap_task P R) (state : soap_state) (can_eat : Bool)
    (hb : E.body_none task.req = true) :
    process_request E fuel task state can_eat = ⟨.ret (-1), task, []⟩ ∧
    vmod_is_valid E fuel task = ⟨.ret false, task, []⟩ ∧
    vmod_action E fuel task = ⟨.ret (some ""), task, []⟩ ∧
    vmod_action_namespace E fuel task = ⟨.ret (some ""), task, []⟩ := by
  refine ⟨process_request_no_body E fuel task state can_eat hb, ?_, ?_, ?_⟩
  · simp [vmod_is_valid, priv_soap_get, process_request_no_body E fuel task _ _ hb,
      run_value_ret]
  · simp [vmod_action, priv_soap_get, process_request_no_body E fuel task _ _ hb,
      run_value_ret]
  · simp [vmod_action_namespace, priv_soap_get, process_request_no_body E fuel task _ _ hb,
      run_value_ret]

/-- C10 on a fresh session of a request without body. -/
theorem C10_witness :
    script_env_no_body.body_none
      (script_task .NONE .VRB_CACHED [([⟨0, [1, 2, 3, 4]⟩], 0)]).req = true ∧
    vmod_is_valid script_env_no_body 11
        (script_task .NONE .VRB_CACHED [([⟨0, [1, 2, 3, 4]⟩], 0)]) =
      ⟨.ret false, script_task .NONE .VRB_CACHED [([⟨0, [1, 2, 3, 4]⟩], 0)], []⟩ :=
  ⟨rfl, (C10_absent_body script_env_no_body 11
    (script_task .NONE .VRB_CACHED [([⟨0, [1, 2, 3, 4]⟩], 0)]) .ACTION_AVAILABLE true rfl).2.1⟩

end VmodSoap
